import Mathlib

/-!
The resumable recon pipeline of reconcomboGo

A shallow embedding of `reconcombo.go`.  The Go program drives external tools
(subfinder, httpx-toolkit, gau, uro, feroxbuster, gf, bash) over a working
directory and keeps a checkpoint record.  The embedding passes the state of the
outside world explicitly:

* `Vis` is the state the external tools see and act on: the text files, by
  path, and a number standing for everything else (clock, network).  `Sys`
  adds the resume files, which are kept in a store of their own because no
  external tool is ever handed the path of `.resume.json`.
* `Env` is the behaviour of the outside world: what each external command does
  to the files and whether it exits with status 0, whether a directory can be
  created, the clock, and the JSON codec.  Every theorem quantifies over `Env`.
* every stage returns the list of `Event`s it performed, in order.

Writes that the Go program makes itself (`os.Create`, `os.WriteFile`,
`os.Remove`) are modelled as succeeding; a file is a text, and a `bufio.Scanner`
over it delivers its lines up to the first one that exceeds the token limit.
-/

namespace ReconCombo

/-! ## Strings -/

/-- Go `unicode.IsSpace`. -/
def isSpace (c : Char) : Bool :=
  let n := c.toNat
  n = 9 || n = 10 || n = 11 || n = 12 || n = 13 || n = 32 || n = 0x85 || n = 0xA0 ||
  n = 0x1680 || (0x2000 ≤ n && n ≤ 0x200A) || n = 0x2028 || n = 0x2029 || n = 0x202F ||
  n = 0x205F || n = 0x3000

def trimLeft (l : List Char) : List Char := l.dropWhile isSpace

def trimRight (l : List Char) : List Char := (l.reverse.dropWhile isSpace).reverse

def trimSpaceChars (l : List Char) : List Char := trimLeft (trimRight l)

/-- Go `strings.TrimSpace`. -/
def trimSpace (s : String) : String := ⟨trimSpaceChars s.data⟩

/-- Go `strings.HasPrefix`. -/
def startsWith (s p : String) : Bool := p.data.isPrefixOf s.data

/-- Go `dropCR` of `bufio`: a trailing carriage return is removed. -/
def dropCR (l : List Char) : List Char :=
  if l.getLast? = some '\r' then l.dropLast else l

/-- The number of bytes of a character in UTF-8. -/
def utf8Len (c : Char) : Nat :=
  if c.toNat ≤ 0x7F then 1 else if c.toNat ≤ 0x7FF then 2 else if c.toNat ≤ 0xFFFF then 3 else 4

/-- The number of bytes of a text in UTF-8. -/
def byteLen (l : List Char) : Nat := (l.map utf8Len).sum

/-- Go `bufio.MaxScanTokenSize`, the size of the buffer of a `bufio.Scanner`. -/
def maxScanTokenSize : Nat := 65536

/-- Whether a line, with its carriage return if any, fits the buffer of the scanner together
with the newline that ends it. -/
def fitsChars (line : List Char) : Bool := decide (byteLen line < maxScanTokenSize)

/-- The tokens that a `bufio.Scanner` with the split function `bufio.ScanLines` delivers, and
whether it stopped with the error `ErrTooLong`: `cur` is the line read so far, reversed.  At a
line of `maxScanTokenSize` bytes or more the buffer is full before the newline is seen, and
`Scan` returns false for good. -/
def scanLinesAux : List Char → List Char → List (List Char) × Bool
  | cur, [] =>
    if cur = [] then ([], false)
    else if fitsChars cur.reverse then ([dropCR cur.reverse], false)
    else ([], true)
  | cur, c :: cs =>
    if c = '\n' then
      if fitsChars cur.reverse then
        (dropCR cur.reverse :: (scanLinesAux [] cs).1, (scanLinesAux [] cs).2)
      else ([], true)
    else scanLinesAux (c :: cur) cs

/-- The successive values of `scanner.Text()` over a file with this content. -/
def scanLines (content : String) : List String :=
  (scanLinesAux [] content.data).1.map String.mk

/-- Whether `scanner.Err()` is not nil after the loop over a file with this content. -/
def scanFailed (content : String) : Bool := (scanLinesAux [] content.data).2

/-- Go `fmt.Sprintf` for a format whose only verb is `%s`; `pending` says that the
character before was a percent sign not yet written. -/
def sprintfAux : Bool → List Char → List (List Char) → List Char
  | false, [], _ => []
  | true, [], _ => ['%']
  | false, c :: rest, args =>
    if c = '%' then sprintfAux true rest args else c :: sprintfAux false rest args
  | true, c :: rest, args =>
    if c = 's' then
      match args with
      | a :: more => a ++ sprintfAux false rest more
      | [] => '%' :: 's' :: sprintfAux false rest []
    else '%' :: c :: sprintfAux false rest args

def sprintf (format : String) (args : List String) : String :=
  ⟨sprintfAux false format.data (args.map String.data)⟩

/-! ## Paths: `filepath.Join` on a Unix system -/

/-- The components of a path between its slashes; `cur` is the component read so far, reversed. -/
def splitSlashAux : List Char → List Char → List (List Char)
  | cur, [] => [cur.reverse]
  | cur, c :: cs =>
    if c = '/' then cur.reverse :: splitSlashAux [] cs
    else splitSlashAux (c :: cur) cs

/-- One component of `filepath.Clean`: empty and `.` components vanish, `..` removes the
component before it, or stays when there is none to remove in a relative path. -/
def cleanStep (rooted : Bool) (stack : List (List Char)) (comp : List Char) : List (List Char) :=
  if comp = [] ∨ comp = ['.'] then stack
  else if comp = ['.', '.'] then
    match stack with
    | [] => if rooted then [] else [comp]
    | top :: below => if top = ['.', '.'] then comp :: stack else below
  else comp :: stack

/-- The kept components, last one first, joined by slashes. -/
def joinStack : List (List Char) → List Char
  | [] => []
  | [c] => c
  | c :: d :: rest => joinStack (d :: rest) ++ '/' :: c

/-- Go `filepath.Clean`. -/
def cleanChars (p : List Char) : List Char :=
  let rooted : Bool := p.head? = some '/'
  let body := joinStack ((splitSlashAux [] p).foldl (cleanStep rooted) [])
  let out := if rooted then '/' :: body else body
  if out = [] then ['.'] else out

def joinChars (a b : List Char) : List Char :=
  if a = [] then (if b = [] then [] else cleanChars b)
  else if b = [] then cleanChars a
  else cleanChars (a ++ '/' :: b)

/-- Go `filepath.Join` of two elements. -/
def join (a b : String) : String := ⟨joinChars a.data b.data⟩

/-! ## Data model -/

/-- The record `ReconProgress`; `LastUpdated` is a clock reading. -/
structure ReconProgress where
  Domain : String := ""
  SubdomainsDone : Bool := false
  URLCollectionDone : Bool := false
  DirectoriesDone : Bool := false
  GFPatternsDone : Bool := false
  JSFilesDone : Bool := false
  Completed : Bool := false
  LastUpdated : Nat := 0
  deriving DecidableEq, Repr

/-- The five stages, in the order `performRecon` calls them. -/
inductive Stage
  | subdomains | urls | directories | gfPatterns | jsFiles
  deriving DecidableEq, Repr

/-- What the program does, as seen from outside. -/
inductive Event
  /-- a stage function was entered -/
  | call (stage : Stage)
  /-- the call `runCommand(name, args, outputFile)` ran; `ok` iff it returned no error -/
  | cmd (name : String) (args : List String) (outputFile : String) (ok : Bool)
  /-- the call `runShellCommand(fmt.Sprintf(template, args...), outputFile)` ran -/
  | shell (template : String) (args : List String) (outputFile : String) (ok : Bool)
  /-- the call `saveProgress(outputDir, progress)` wrote this record -/
  | save (outputDir : String) (progress : ReconProgress)
  /-- the call `os.Create(path)` -/
  | create (path : String)
  /-- the call `os.Remove(path)` -/
  | remove (path : String)
  /-- the coordinator `performRecon` printed the error returned by a stage -/
  | logError (stage : Stage) (msg : String)
  deriving DecidableEq, Repr

/-- The state external tools act on. -/
structure Vis where
  files : String → Option String
  ext : Nat

structure Sys where
  vis : Vis
  checkpoint : String → Option String

/-- An external process: `exec.Command(name, args...)` with stdout sent to `outputFile`
(inherited when empty), or `bash -c command`. -/
inductive Cmd
  | direct (name : String) (args : List String) (outputFile : String)
  | bash (command : String) (outputFile : String)
  deriving DecidableEq, Repr

structure Env where
  /-- runs a process: exit status 0 or not, and the state it leaves -/
  exec : Cmd → Vis → Bool × Vis
  /-- whether `os.MkdirAll` succeeds -/
  mkdirOk : String → Vis → Bool
  /-- the clock `time.Now()` -/
  now : Vis → Nat
  /-- the encoder `json.MarshalIndent` -/
  marshal : ReconProgress → String
  /-- the decoder `json.Unmarshal` -/
  unmarshal : String → Option ReconProgress

/-- A value computed by a step that acts on the files only, with the state it left and what
it did. -/
structure Run (α : Type) where
  val : α
  vis : Vis
  events : List Event

/-- A progress record held by the program, with the state and what was done so far. -/
structure Held where
  val : ReconProgress
  sys : Sys
  events : List Event

/-- The result of a stage: the error it returned, the record it leaves. -/
structure StageResult where
  err : Option String
  progress : ReconProgress
  sys : Sys
  events : List Event

def Vis.write (v : Vis) (path data : String) : Vis :=
  { v with files := fun p => if p = path then some data else v.files p }

/-- Whether `os.Stat(path)` returned no error. -/
def osStat (v : Vis) (path : String) : Bool := (v.files path).isSome

/-- The call `os.Create(path)`: the file exists afterwards and is empty. -/
def osCreate (path : String) (v : Vis) : Vis := v.write path ""

/-! ## Command runner and checkpoint store -/

/-- The function `runCommand`: stdout goes to `outputFile`, created or truncated first, unless it is empty.
The value is true iff no error is returned. -/
def runCommand (env : Env) (name : String) (args : List String) (outputFile : String)
    (v : Vis) : Run Bool :=
  let v1 := if outputFile = "" then v else v.write outputFile ""
  let r := env.exec (Cmd.direct name args outputFile) v1
  ⟨r.1, r.2, [Event.cmd name args outputFile r.1]⟩

/-- The function `runShellCommand`: the same through `bash -c`. -/
def runShellCommand (env : Env) (command : String) (outputFile : String) (v : Vis) :
    Bool × Vis :=
  let v1 := if outputFile = "" then v else v.write outputFile ""
  env.exec (Cmd.bash command outputFile) v1

/-- The pair `cmd := fmt.Sprintf(template, args...)` and `runShellCommand(cmd, "")` of the
stages. -/
def shellf (env : Env) (template : String) (args : List String) (v : Vis) : Run Bool :=
  let r := runShellCommand env (sprintf template args) "" v
  ⟨r.1, r.2, [Event.shell template args "" r.1]⟩

/-- The function `countLines`: the count and whether an error is returned (the file could
not be opened, or the scanner stopped with an error). -/
def countLines (v : Vis) (filename : String) : Nat × Bool :=
  match v.files filename with
  | none => (0, true)
  | some content => ((scanLines content).length, scanFailed content)

def resumeFileOf (outputDir : String) : String := join outputDir ".resume.json"

/-- The function `saveProgress`: stamps the record, then writes it to the resume file. -/
def saveProgress (env : Env) (outputDir : String) (progress : ReconProgress) (s : Sys) :
    Held :=
  let stamped := { progress with LastUpdated := env.now s.vis }
  ⟨stamped,
   { s with checkpoint := fun p =>
       if p = resumeFileOf outputDir then some (env.marshal stamped) else s.checkpoint p },
   [Event.save outputDir stamped]⟩

/-- The function `loadProgress`: the record, if any, and the error, if any. -/
def loadProgress (env : Env) (outputDir : String) (s : Sys) :
    Option ReconProgress × Option String :=
  match s.checkpoint (resumeFileOf outputDir) with
  | none => (none, none)
  | some data =>
    match env.unmarshal data with
    | none => (none, some "invalid resume file")
    | some progress => (some progress, none)

/-- The function `createOutputDir` (lines 140-150). -/
def createOutputDir (env : Env) (domain : String) (s : Sys) : Except String String :=
  let baseDir := "reconcombo"
  let domainDir := join baseDir domain
  if env.mkdirOk domainDir s.vis then .ok domainDir else .error "failed to create directory"

/-! ## The five stages -/

def httpxArgs (input output : String) : List String :=
  ["-l", input, "-mc", "200", "-silent", "-o", output]

/-- The function `enumerateSubdomains` (lines 210-248).  The calls of `countLines` whose
result is only printed are left out, here and in the other stages. -/
def enumerateSubdomains (env : Env) (domain outputDir : String) (progress : ReconProgress)
    (s : Sys) : StageResult :=
  if progress.SubdomainsDone then ⟨none, progress, s, [Event.call .subdomains]⟩
  else
    let subdomainFile := join outputDir "subdomains_tmp.txt"
    let subdomainLiveFile := join outputDir "subdomains_live.txt"
    let r1 := runCommand env "subfinder" ["-d", domain, "-o", subdomainFile] "" s.vis
    if !r1.val then
      ⟨some "subfinder failed", progress, { s with vis := r1.vis },
        Event.call .subdomains :: r1.events⟩
    else
      let r2 := runCommand env "httpx-toolkit" (httpxArgs subdomainFile subdomainLiveFile) ""
        r1.vis
      let r3 := saveProgress env outputDir { progress with SubdomainsDone := true }
        { s with vis := r2.vis }
      ⟨none, r3.val, r3.sys, Event.call .subdomains :: (r1.events ++ r2.events ++ r3.events)⟩

/-- The function `collectURLs` (lines 251-312).  The ffuf step is commented out in the
source. -/
def collectURLs (env : Env) (domain outputDir : String) (progress : ReconProgress)
    (s : Sys) : StageResult :=
  if progress.URLCollectionDone then ⟨none, progress, s, [Event.call .urls]⟩
  else
    let subdomainLiveFile := join outputDir "subdomains_live.txt"
    let gauOutput := join outputDir "gau_tmp.txt"
    let uroOutput := join outputDir "uro_tmp.txt"
    let urlsFile := join outputDir "urls.txt"
    let r1 := runCommand env "gau" [domain] gauOutput s.vis
    let r2 : Run Bool :=
      if osStat r1.vis subdomainLiveFile then
        shellf env "cat %s | gau >> %s" [subdomainLiveFile, gauOutput] r1.vis
      else ⟨true, r1.vis, []⟩
    let r3 := shellf env "cat %s | uro > %s" [gauOutput, uroOutput] r2.vis
    if !r3.val then
      ⟨some "uro filtering failed", progress, { s with vis := r3.vis },
        Event.call .urls :: (r1.events ++ r2.events ++ r3.events)⟩
    else
      let r4 := runCommand env "httpx-toolkit" (httpxArgs uroOutput urlsFile) "" r3.vis
      if !r4.val then
        ⟨some "httpx filtering failed", progress, { s with vis := r4.vis },
          Event.call .urls :: (r1.events ++ r2.events ++ r3.events ++ r4.events)⟩
      else
        let r5 := saveProgress env outputDir { progress with URLCollectionDone := true }
          { s with vis := r4.vis }
        ⟨none, r5.val, r5.sys,
          Event.call .urls ::
            (r1.events ++ r2.events ++ r3.events ++ r4.events ++ r5.events)⟩

/-- The loop that reads `subdomains_live.txt` in `findDirectories`: `subdomains` is the slice
built so far. -/
def readTargets : List String → List String → List String
  | [], subdomains => subdomains
  | line :: rest, subdomains =>
    let subdomain := trimSpace line
    if subdomain ≠ "" then
      let subdomain :=
        if !startsWith subdomain "http://" && !startsWith subdomain "https://" then
          "https://" ++ subdomain
        else subdomain
      readTargets rest (subdomains ++ [subdomain])
    else readTargets rest subdomains

/-- The slice `subdomains` of `findDirectories` when the loop over it starts. -/
def directoryTargets (domain outputDir : String) (v : Vis) : List String :=
  match v.files (join outputDir "subdomains_live.txt") with
  | some content => readTargets (scanLines content) ["https://" ++ domain]
  | none => ["https://" ++ domain]

/-- The loop `for i, target := range subdomains` of `findDirectories`, from index `i`. -/
def feroxLoop (env : Env) (outputDir : String) : Nat → List String → Vis → Run Unit
  | _, [], v => ⟨(), v, []⟩
  | i, target :: rest, v =>
    if i ≥ 5 then ⟨(), v, []⟩
    else
      let feroxOutput := join outputDir ("ferox_tmp_" ++ toString i ++ ".txt")
      let r := runCommand env "feroxbuster"
        ["-u", target, "-o", feroxOutput, "--silent", "-t", "10"] "" v
      let k := feroxLoop env outputDir (i + 1) rest r.vis
      ⟨(), k.vis, r.events ++ k.events⟩

def combineTemplate : String :=
  "cat %s 2>/dev/null | grep -oE \x27https?://[^[:space:]]+\x27 | sort -u > %s || true"

/-- The function `findDirectories` (lines 315-396). -/
def findDirectories (env : Env) (domain outputDir : String) (progress : ReconProgress)
    (s : Sys) : StageResult :=
  if progress.DirectoriesDone then ⟨none, progress, s, [Event.call .directories]⟩
  else
    let dirFileTmp := join outputDir "directories_tmp.txt"
    let dirFile := join outputDir "directories.txt"
    let subdomains := directoryTargets domain outputDir s.vis
    let r1 := feroxLoop env outputDir 0 subdomains s.vis
    let r2 := shellf env combineTemplate [join outputDir "ferox_tmp_*.txt", dirFileTmp] r1.vis
    let r3 := runCommand env "httpx-toolkit" (httpxArgs dirFileTmp dirFile) "" r2.vis
    let r4 := saveProgress env outputDir { progress with DirectoriesDone := true }
      { s with vis := r3.vis }
    ⟨none, r4.val, r4.sys,
      Event.call .directories :: (r1.events ++ r2.events ++ r3.events ++ r4.events)⟩

/-- The fixed pattern vocabulary `patterns` of `extractGFPatterns`. -/
def patterns : List String := ["xss", "sqli", "ssrf", "redirect", "lfi", "rce", "idor"]

/-- The loop `for _, pattern := range patterns` of `extractGFPatterns`. -/
def gfLoop (env : Env) (outputDir urlsFile : String) : List String → Vis → Run Unit
  | [], v => ⟨(), v, []⟩
  | pattern :: rest, v =>
    let tempFile := join outputDir (sprintf "gf_%s_tmp.txt" [pattern])
    let r := shellf env "cat %s | gf %s > %s 2>/dev/null || true" [urlsFile, pattern, tempFile] v
    let k := gfLoop env outputDir urlsFile rest r.vis
    ⟨(), k.vis, r.events ++ k.events⟩

/-- The part of `extractGFPatterns` that searches every pattern and merges the results into
`gfpatterns_tmp.txt`. -/
def gfMerge (env : Env) (outputDir : String) (v : Vis) : Run Bool :=
  let urlsFile := join outputDir "urls.txt"
  let gfFileTmp := join outputDir "gfpatterns_tmp.txt"
  let r1 := gfLoop env outputDir urlsFile patterns v
  let r2 := shellf env "cat %s 2>/dev/null | sort -u > %s || true"
    [join outputDir "gf_*_tmp.txt", gfFileTmp] r1.vis
  ⟨r2.val, r2.vis, r1.events ++ r2.events⟩

/-- The part of `extractGFPatterns` that turns `gfpatterns_tmp.txt` into `gfpatterns.txt`. -/
def gfFinal (env : Env) (outputDir : String) (v : Vis) : Run Bool :=
  let gfFileTmp := join outputDir "gfpatterns_tmp.txt"
  let gfFile := join outputDir "gfpatterns.txt"
  if osStat v gfFileTmp then
    if (countLines v gfFileTmp).1 > 0 then
      runCommand env "httpx-toolkit" (httpxArgs gfFileTmp gfFile) "" v
    else ⟨true, osCreate gfFile v, [Event.create gfFile]⟩
  else ⟨true, v, []⟩

/-- The function `extractGFPatterns` (lines 399-461). -/
def extractGFPatterns (env : Env) (_domain outputDir : String) (progress : ReconProgress)
    (s : Sys) : StageResult :=
  if progress.GFPatternsDone then ⟨none, progress, s, [Event.call .gfPatterns]⟩
  else
    let urlsFile := join outputDir "urls.txt"
    if !osStat s.vis urlsFile then
      ⟨some "urls.txt not found", progress, s, [Event.call .gfPatterns]⟩
    else
      let r1 := gfMerge env outputDir s.vis
      let r2 := gfFinal env outputDir r1.vis
      let r3 := saveProgress env outputDir { progress with GFPatternsDone := true }
        { s with vis := r2.vis }
      ⟨none, r3.val, r3.sys, Event.call .gfPatterns :: (r1.events ++ r2.events ++ r3.events)⟩

def jsTemplate : String :=
  "cat %s | grep -iE \x27\\.js($|\\?)\x27 | sort -u > %s"

/-- The filter step of `extractJSFiles`, which writes `jsfiles_tmp.txt`. -/
def jsFilter (env : Env) (outputDir : String) (v : Vis) : Run Bool :=
  shellf env jsTemplate [join outputDir "urls.txt", join outputDir "jsfiles_tmp.txt"] v

/-- The part of `extractJSFiles` that turns `jsfiles_tmp.txt` into `jsfiles.txt`. -/
def jsFinal (env : Env) (outputDir : String) (v : Vis) : Run Bool :=
  let jsFileTmp := join outputDir "jsfiles_tmp.txt"
  let jsFile := join outputDir "jsfiles.txt"
  if (countLines v jsFileTmp).1 > 0 then
    runCommand env "httpx-toolkit" (httpxArgs jsFileTmp jsFile) "" v
  else ⟨true, osCreate jsFile v, [Event.create jsFile]⟩

/-- The function `extractJSFiles` (lines 464-512). -/
def extractJSFiles (env : Env) (_domain outputDir : String) (progress : ReconProgress)
    (s : Sys) : StageResult :=
  if progress.JSFilesDone then ⟨none, progress, s, [Event.call .jsFiles]⟩
  else
    let urlsFile := join outputDir "urls.txt"
    if !osStat s.vis urlsFile then
      ⟨some "urls.txt not found", progress, s, [Event.call .jsFiles]⟩
    else
      let r1 := jsFilter env outputDir s.vis
      if !r1.val then
        ⟨some "JS extraction failed", progress, { s with vis := r1.vis },
          Event.call .jsFiles :: r1.events⟩
      else
        let r2 := jsFinal env outputDir r1.vis
        let r3 := saveProgress env outputDir { progress with JSFilesDone := true }
          { s with vis := r2.vis }
        ⟨none, r3.val, r3.sys, Event.call .jsFiles :: (r1.events ++ r2.events ++ r3.events)⟩

/-! ## Scan coordinator -/

/-- The stage function of each stage. -/
def Stage.run : Stage → Env → String → String → ReconProgress → Sys → StageResult
  | .subdomains => enumerateSubdomains
  | .urls => collectURLs
  | .directories => findDirectories
  | .gfPatterns => extractGFPatterns
  | .jsFiles => extractJSFiles

/-- The completion flag of each stage. -/
def Stage.flag : Stage → ReconProgress → Bool
  | .subdomains, p => p.SubdomainsDone
  | .urls, p => p.URLCollectionDone
  | .directories, p => p.DirectoriesDone
  | .gfPatterns, p => p.GFPatternsDone
  | .jsFiles, p => p.JSFilesDone

def stageOrder : List Stage := [.subdomains, .urls, .directories, .gfPatterns, .jsFiles]

/-- One step `if err := stage(domain, outputDir, progress); err != nil { Printf(...) }` of
`performRecon`: the error is printed and dropped. -/
def attempt (env : Env) (domain outputDir : String) (acc : Held) (stage : Stage) : Held :=
  let r := stage.run env domain outputDir acc.val acc.sys
  ⟨r.progress, r.sys,
    acc.events ++ r.events ++
      (match r.err with
       | some msg => [Event.logError stage msg]
       | none => [])⟩

/-- The five stage calls of `performRecon`, from the record it holds. -/
def reconStages (env : Env) (domain outputDir : String) (progress : ReconProgress) (s : Sys) :
    Held :=
  let r0 : Held := ⟨progress, s, []⟩
  let r1 := attempt env domain outputDir r0 .subdomains
  let r2 := attempt env domain outputDir r1 .urls
  let r3 := attempt env domain outputDir r2 .directories
  let r4 := attempt env domain outputDir r3 .gfPatterns
  attempt env domain outputDir r4 .jsFiles

/-- The end of `performRecon`: mark completed, save, remove the resume file. -/
def finishRecon (env : Env) (outputDir : String) (r : Held) : Held :=
  let saved := saveProgress env outputDir { r.val with Completed := true } r.sys
  let resumeFile := resumeFileOf outputDir
  ⟨saved.val,
   { saved.sys with checkpoint := fun p => if p = resumeFile then none else saved.sys.checkpoint p },
   r.events ++ saved.events ++ [Event.remove resumeFile]⟩

/-- The part of `performRecon` that follows the loading of the record: the five stages, then
the completion.  The signal handler it installs first acts only when a signal arrives. -/
def reconFrom (env : Env) (domain outputDir : String) (progress : ReconProgress) (s : Sys) :
    Held :=
  finishRecon env outputDir (reconStages env domain outputDir progress s)

/-- The result of `performRecon`: the error returned, and the record held at the return. -/
structure ReconResult where
  err : Option String
  progress : Option ReconProgress
  sys : Sys
  events : List Event

/-- The function `performRecon` (lines 515-594).  A resume file that cannot be decoded is
treated like a missing one. -/
def performRecon (env : Env) (domain : String) (s : Sys) : ReconResult :=
  let domain := trimSpace domain
  if domain = "" then ⟨some "empty domain", none, s, []⟩
  else
    match createOutputDir env domain s with
    | .error e => ⟨some e, none, s, []⟩
    | .ok outputDir =>
      let progress : ReconProgress :=
        match (loadProgress env outputDir s).1 with
        | some p => p
        | none => { Domain := domain }
      let r := reconFrom env domain outputDir progress s
      ⟨none, some r.val, r.sys, r.events⟩

/-! ## Batch mode of `main` -/

/-- The loop `for scanner.Scan()` of `main` over the lines of the batch file: `launched` is the
list of domains for which a `performRecon` goroutine was started so far. -/
def batchLoop : List String → List String → List String
  | [], launched => launched
  | line :: rest, launched =>
    let domain := trimSpace line
    if domain = "" ∨ startsWith domain "#" then batchLoop rest launched
    else batchLoop rest (launched ++ [domain])

/-- The domains for which `main -l file` starts `performRecon`, in order. -/
def batchLaunches (content : String) : List String := batchLoop (scanLines content) []

/-- The state of the batch loop and its goroutines: `sem` is the number of elements in the
channel `semaphore`, whose capacity is 3. -/
structure Sched where
  pending : List String
  sem : Nat
  holding : Option String
  running : List String
  returned : List String
  finished : List String
  deriving DecidableEq, Repr

/-- The steps of the loop and of the goroutines. -/
inductive Action
  /-- the loop sends on `semaphore` for the next domain -/
  | acquire
  /-- the loop executes its `go` statement -/
  | launch
  /-- the call of `performRecon` returns in the goroutine numbered `i` among the running ones -/
  | finish (i : Nat)
  /-- the deferred receive from `semaphore` of the goroutine numbered `i` among the returned -/
  | release (i : Nat)
  deriving DecidableEq, Repr

def semaphoreCapacity : Nat := 3

/-- One step; `none` when the step cannot be taken (a send on a full channel blocks). -/
def Sched.step (st : Sched) : Action → Option Sched
  | .acquire =>
    match st.pending, st.holding with
    | d :: rest, none =>
      if st.sem < semaphoreCapacity then
        some { st with pending := rest, sem := st.sem + 1, holding := some d }
      else none
    | _, _ => none
  | .launch =>
    match st.holding with
    | some d => some { st with holding := none, running := st.running ++ [d] }
    | none => none
  | .finish i =>
    match st.running.get? i with
    | some d => some { st with running := st.running.eraseIdx i, returned := st.returned ++ [d] }
    | none => none
  | .release i =>
    match st.returned.get? i with
    | some d =>
      some { st with returned := st.returned.eraseIdx i, sem := st.sem - 1,
                     finished := st.finished ++ [d] }
    | none => none

/-- The state in which the loop of `main` starts on the domains of the batch file. -/
def Sched.init (domains : List String) : Sched :=
  { pending := domains, sem := 0, holding := none, running := [], returned := [], finished := [] }

/-- A sequence of steps from a state. -/
def Sched.exec : Sched → List Action → Option Sched
  | st, [] => some st
  | st, a :: rest =>
    match st.step a with
    | some st1 => st1.exec rest
    | none => none

/-! ## Normal form of a stage

Every stage function has the same shape: return at once when its flag is set; otherwise run
its commands on the files; on a fatal error return it with the record untouched; otherwise set
the flag, save, and return no error. -/

/-- The record with the flag of a stage set. -/
def Stage.setDone : Stage → ReconProgress → ReconProgress
  | .subdomains, p => { p with SubdomainsDone := true }
  | .urls, p => { p with URLCollectionDone := true }
  | .directories, p => { p with DirectoriesDone := true }
  | .gfPatterns, p => { p with GFPatternsDone := true }
  | .jsFiles, p => { p with JSFilesDone := true }

/-- The commands of a stage whose flag is not set, with the fatal error if there is one. -/
def Stage.body : Stage → Env → String → String → Vis → Run (Option String)
  | .subdomains, env, domain, outputDir, v =>
    let subdomainFile := join outputDir "subdomains_tmp.txt"
    let r1 := runCommand env "subfinder" ["-d", domain, "-o", subdomainFile] "" v
    if !r1.val then ⟨some "subfinder failed", r1.vis, r1.events⟩
    else
      let r2 := runCommand env "httpx-toolkit"
        (httpxArgs subdomainFile (join outputDir "subdomains_live.txt")) "" r1.vis
      ⟨none, r2.vis, r1.events ++ r2.events⟩
  | .urls, env, domain, outputDir, v =>
    let gauOutput := join outputDir "gau_tmp.txt"
    let r1 := runCommand env "gau" [domain] gauOutput v
    let r2 : Run Bool :=
      if osStat r1.vis (join outputDir "subdomains_live.txt") then
        shellf env "cat %s | gau >> %s" [join outputDir "subdomains_live.txt", gauOutput] r1.vis
      else ⟨true, r1.vis, []⟩
    let r3 := shellf env "cat %s | uro > %s" [gauOutput, join outputDir "uro_tmp.txt"] r2.vis
    if !r3.val then ⟨some "uro filtering failed", r3.vis, r1.events ++ r2.events ++ r3.events⟩
    else
      let r4 := runCommand env "httpx-toolkit"
        (httpxArgs (join outputDir "uro_tmp.txt") (join outputDir "urls.txt")) "" r3.vis
      if !r4.val then
        ⟨some "httpx filtering failed", r4.vis,
          r1.events ++ r2.events ++ r3.events ++ r4.events⟩
      else ⟨none, r4.vis, r1.events ++ r2.events ++ r3.events ++ r4.events⟩
  | .directories, env, domain, outputDir, v =>
    let dirFileTmp := join outputDir "directories_tmp.txt"
    let r1 := feroxLoop env outputDir 0 (directoryTargets domain outputDir v) v
    let r2 := shellf env combineTemplate [join outputDir "ferox_tmp_*.txt", dirFileTmp] r1.vis
    let r3 := runCommand env "httpx-toolkit"
      (httpxArgs dirFileTmp (join outputDir "directories.txt")) "" r2.vis
    ⟨none, r3.vis, r1.events ++ r2.events ++ r3.events⟩
  | .gfPatterns, env, _, outputDir, v =>
    if !osStat v (join outputDir "urls.txt") then ⟨some "urls.txt not found", v, []⟩
    else
      let r1 := gfMerge env outputDir v
      let r2 := gfFinal env outputDir r1.vis
      ⟨none, r2.vis, r1.events ++ r2.events⟩
  | .jsFiles, env, _, outputDir, v =>
    if !osStat v (join outputDir "urls.txt") then ⟨some "urls.txt not found", v, []⟩
    else
      let r1 := jsFilter env outputDir v
      if !r1.val then ⟨some "JS extraction failed", r1.vis, r1.events⟩
      else
        let r2 := jsFinal env outputDir r1.vis
        ⟨none, r2.vis, r1.events ++ r2.events⟩

/-- The common shape of the stage functions. -/
def Stage.normal (stage : Stage) (env : Env) (domain outputDir : String)
    (progress : ReconProgress) (s : Sys) : StageResult :=
  if stage.flag progress then ⟨none, progress, s, [Event.call stage]⟩
  else
    let b := stage.body env domain outputDir s.vis
    match b.val with
    | some msg => ⟨some msg, progress, { s with vis := b.vis }, Event.call stage :: b.events⟩
    | none =>
      let saved := saveProgress env outputDir (stage.setDone progress) { s with vis := b.vis }
      ⟨none, saved.val, saved.sys, Event.call stage :: (b.events ++ saved.events)⟩

/-- The events that act on the files: commands run and files created. -/
def Event.isEffect : Event → Bool
  | .cmd _ _ _ _ => true
  | .shell _ _ _ _ => true
  | .create _ => true
  | _ => false

/-- The stages entered, in order. -/
def calls (events : List Event) : List Stage :=
  events.filterMap fun e =>
    match e with
    | .call stage => some stage
    | _ => none

/-- The commands run directly (not through bash), in order: name and arguments. -/
def directCmds (events : List Event) : List (String × List String) :=
  events.filterMap fun e =>
    match e with
    | .cmd name args _ _ => some (name, args)
    | _ => none

/-! ## Sample environments -/

/-- A state with no files and no checkpoint. -/
def emptySys : Sys := { vis := { files := fun _ => none, ext := 0 }, checkpoint := fun _ => none }

/-- A state in which only `reconcombo/example.com/urls.txt` exists, with one URL. -/
def urlsOnlySys : Sys :=
  { vis := { files := fun p =>
               if p = "reconcombo/example.com/urls.txt" then some "https://example.com/\n"
               else none,
             ext := 0 },
    checkpoint := fun _ => none }

/-- Every external command fails and changes nothing. -/
def envAllFail : Env :=
  { exec := fun _ v => (false, v), mkdirOk := fun _ _ => true, now := fun _ => 0,
    marshal := fun _ => "", unmarshal := fun _ => none }

/-- Every external command succeeds, except httpx-toolkit; none changes anything. -/
def envHttpxFails : Env :=
  { envAllFail with
    exec := fun c v =>
      match c with
      | .direct name _ _ => (name != "httpx-toolkit", v)
      | .bash _ _ => (true, v) }

/-- Every external command succeeds; those run through bash leave the two intermediate lists
`gfpatterns_tmp.txt` and `jsfiles_tmp.txt` of example.com empty. -/
def envNoMatches : Env :=
  { envAllFail with
    exec := fun c v =>
      match c with
      | .direct _ _ _ => (true, v)
      | .bash _ _ =>
        (true, (v.write "reconcombo/example.com/gfpatterns_tmp.txt" "").write
          "reconcombo/example.com/jsfiles_tmp.txt" "") }

/-! ## The batch file and the target list, in the words of the specification -/

/-- The pieces of a text between its newline characters; `cur` is the piece read so far,
reversed. -/
def splitNewlineAux : List Char → List Char → List (List Char)
  | cur, [] => [cur.reverse]
  | cur, c :: cs =>
    if c = '\n' then cur.reverse :: splitNewlineAux [] cs
    else splitNewlineAux (c :: cur) cs

/-- The lines of a newline-delimited text. -/
def specLines (content : String) : List String :=
  (splitNewlineAux [] content.data).map String.mk

/-- Whether a line is shorter than the 65536 bytes of the scanner buffer. -/
def fitsScanner (line : String) : Bool := fitsChars line.data

/-- The lines of a text that come before its first line of 65536 bytes or more. -/
def specLinesRead (content : String) : List String :=
  (specLines content).takeWhile fitsScanner

/-- The domains of a batch file: its whitespace-trimmed lines that are not empty and do not
begin with `#`. -/
def specBatchDomains (content : String) : List String :=
  ((specLines content).map trimSpace).filter fun d => decide (d ≠ "") && !startsWith d "#"

/-- A target with `https://` put in front unless it already has a scheme. -/
def withScheme (t : String) : String :=
  if startsWith t "http://" || startsWith t "https://" then t else "https://" ++ t

/-- The list that starts with the root domain and continues with each non-blank trimmed line
of the content of `subdomains_live.txt`. -/
def specTargetList (domain content : String) : List String :=
  ("https://" ++ domain) ::
    (((specLines content).map trimSpace).filter fun t => decide (t ≠ "")).map withScheme

/-- The same list, made from the lines that come before the first line of 65536 bytes or
more. -/
def specTargetsRead (domain content : String) : List String :=
  ("https://" ++ domain) ::
    (((specLinesRead content).map trimSpace).filter fun t => decide (t ≠ "")).map withScheme

/-- The invocation of feroxbuster on the target numbered `i`. -/
def feroxInvocation (outputDir : String) (it : Nat × String) : String × List String :=
  ("feroxbuster",
    ["-u", it.2, "-o", join outputDir ("ferox_tmp_" ++ toString it.1 ++ ".txt"),
     "--silent", "-t", "10"])

/-- The invocations of feroxbuster among the events, in order: name and arguments. -/
def feroxRuns (events : List Event) : List (String × List String) :=
  (directCmds events).filter fun c => c.1 == "feroxbuster"

/-- A line of 65536 letters `b`. -/
def longLine : List Char := List.replicate maxScanTokenSize 'b'

/-- A batch file: the line `longLine`, then the line `c.com`. -/
def longBatch : String := ⟨longLine ++ '\n' :: "c.com\n".data⟩

/-- A content for `subdomains_live.txt`: the line `longLine`, then the host `c.example.com`. -/
def longLive : String := ⟨longLine ++ '\n' :: "c.example.com\n".data⟩

/-- A state in which only `reconcombo/example.com/subdomains_live.txt` exists, with the
content `longLive`. -/
def longLiveSys : Sys :=
  { vis := { files := fun p =>
               if p = "reconcombo/example.com/subdomains_live.txt" then some longLive
               else none,
             ext := 0 },
    checkpoint := fun _ => none }

/-- A content for `subdomains_live.txt`: six hosts, a blank line, one host without scheme. -/
def liveContent : String :=
  "https://a.example.com\nhttp://b.example.com\n\n  c.example.com \r\nhttps://d.example.com\nhttps://e.example.com\nhttps://f.example.com\n"

/-- A state in which only `reconcombo/example.com/subdomains_live.txt` exists. -/
def liveSys : Sys :=
  { vis := { files := fun p =>
               if p = "reconcombo/example.com/subdomains_live.txt" then some liveContent
               else none,
             ext := 0 },
    checkpoint := fun _ => none }

/-! ## Runs of several stages -/

/-- The stage calls of `performRecon` for the stages of a list, in order, started from a held
record. -/
def stagesFrom (env : Env) (domain outputDir : String) (acc : Held) (l : List Stage) : Held :=
  l.foldl (attempt env domain outputDir) acc

/-- The five stage flags of a record, in stage order. -/
def flagsOf (p : ReconProgress) : List Bool := stageOrder.map fun st => st.flag p

/-- The position of a stage in the pipeline, from 0. -/
def Stage.index : Stage → Nat
  | .subdomains => 0
  | .urls => 1
  | .directories => 2
  | .gfPatterns => 3
  | .jsFiles => 4

/-- The first `n` stage flags of the record are true and the others are false. -/
def prefixDone (n : Nat) (p : ReconProgress) : Prop :=
  ∀ st ∈ stageOrder, st.flag p = decide (st.index < n)

instance (n : Nat) (p : ReconProgress) : Decidable (prefixDone n p) := by
  unfold prefixDone; infer_instance

/-- The record of a new scan. -/
def freshProgress (domain : String) : ReconProgress := { Domain := domain }

/-- The number of elements of the semaphore channel that the loop holds for a goroutine it
has not started yet. -/
def Sched.held (st : Sched) : Nat := if st.holding.isSome then 1 else 0

/-- The goroutines started whose element is still in the channel are as many as the
elements of the channel, and the channel is within its capacity. -/
def Sched.Inv (st : Sched) : Prop :=
  st.running.length + st.returned.length + st.held = st.sem ∧ st.sem ≤ semaphoreCapacity

/-! ## Shell expressions -/

/-- The shell metacharacters: whitespace, `;`, `|`, `&`, `$`, backquote, the two quotes, `<`
and `>`. -/
def isShellMeta (c : Char) : Bool :=
  isSpace c || c = ';' || c = '|' || c = '&' || c = '$' || c.toNat = 96 || c.toNat = 34 ||
    c.toNat = 39 || c = '<' || c = '>'

/-- No character of the text is a shell metacharacter. -/
def shellSafe (s : String) : Bool := s.data.all fun c => !isShellMeta c

/-- The formats of the expressions the stages pass to `runShellCommand`. -/
def shellTemplates : List String :=
  ["cat %s | gau >> %s", "cat %s | uro > %s", combineTemplate,
   "cat %s | gf %s > %s 2>/dev/null || true", "cat %s 2>/dev/null | sort -u > %s || true",
   jsTemplate]

/-- The file names, fixed in the program, that are joined to the working directory to
make the arguments of those formats. -/
def artifactNames : List String :=
  ["subdomains_live.txt", "gau_tmp.txt", "uro_tmp.txt", "urls.txt", "ferox_tmp_*.txt",
   "directories_tmp.txt", "gf_*_tmp.txt", "gfpatterns_tmp.txt", "jsfiles_tmp.txt"] ++
    patterns.map fun pattern => sprintf "gf_%s_tmp.txt" [pattern]

/-- An argument of a format is a pattern name or a fixed file name under the working
directory. -/
def shellArgOk (outputDir a : String) : Bool :=
  decide (a ∈ patterns) || artifactNames.any fun f => a == join outputDir f

/-- An event is not a shell expression, or is one made from a fixed format and such
arguments. -/
def shellOk (outputDir : String) : Event → Bool
  | .shell template args _ _ =>
    decide (template ∈ shellTemplates) && args.all (shellArgOk outputDir)
  | _ => true

/-- The working directory `performRecon` uses for a domain. -/
def workDir (domain : String) : String := join "reconcombo" (trimSpace domain)

/-- The run of `performRecon` on a new scan, when its first `n` stage calls have returned:
the record it holds, the state, and what it did. -/
def uninterrupted (env : Env) (domain : String) (s0 : Sys) (n : Nat) : Held :=
  stagesFrom env (trimSpace domain) (workDir domain)
    ⟨freshProgress (trimSpace domain), s0, []⟩ (stageOrder.take n)

/-- A record with the first two stages done. -/
def twoDone : ReconProgress :=
  { Domain := "example.com", SubdomainsDone := true, URLCollectionDone := true }

/-- The environment `envNoMatches` with a decoder that reads `twoDone` from any resume file. -/
def envResume : Env := { envNoMatches with unmarshal := fun _ => some twoDone }

/-- A record with the first stage done. -/
def oneDone : ReconProgress := { Domain := "example.com", SubdomainsDone := true }

/-- The environment `envAllFail` with a decoder that reads `oneDone` from any resume file. -/
def envFailResume : Env := { envAllFail with unmarshal := fun _ => some oneDone }

/-- The record at the end of a scan in which only the directory stage was marked done. -/
def failedScan : ReconProgress :=
  { Domain := "example.com", DirectoriesDone := true, Completed := true }

/-- A batch of four domains. -/
def sampleBatch : List String := ["a.com", "b.com", "c.com", "d.com"]

/-- Three runs are started, the second of them returns, a fourth domain waits. -/
def sampleSteps : List Action :=
  [.acquire, .launch, .acquire, .launch, .finish 1, .acquire, .launch]

/-- The state the steps `sampleSteps` lead to. -/
def gateFull : Sched :=
  { pending := ["d.com"], sem := 3, holding := none, running := ["a.com", "c.com"],
    returned := ["b.com"], finished := [] }

/-! # Theorems -/

/-! ## Basic facts -/

@[simp] theorem runCommand_events (env : Env) (n : String) (a : List String) (o : String)
    (v : Vis) :
    (runCommand env n a o v).events = [Event.cmd n a o (runCommand env n a o v).val] := rfl

@[simp] theorem shellf_events (env : Env) (t : String) (a : List String) (v : Vis) :
    (shellf env t a v).events = [Event.shell t a "" (shellf env t a v).val] := rfl

@[simp] theorem saveProgress_events (env : Env) (d : String) (p : ReconProgress) (s : Sys) :
    (saveProgress env d p s).events = [Event.save d (saveProgress env d p s).val] := rfl

@[simp] theorem saveProgress_val (env : Env) (d : String) (p : ReconProgress) (s : Sys) :
    (saveProgress env d p s).val = { p with LastUpdated := env.now s.vis } := rfl

@[simp] theorem saveProgress_vis (env : Env) (d : String) (p : ReconProgress) (s : Sys) :
    (saveProgress env d p s).sys.vis = s.vis := rfl

@[simp] theorem jsFilter_events (env : Env) (d : String) (v : Vis) :
    (jsFilter env d v).events =
      [Event.shell jsTemplate [join d "urls.txt", join d "jsfiles_tmp.txt"] ""
        (jsFilter env d v).val] := rfl

theorem Stage.run_eq_normal (stage : Stage) (env : Env) (domain outputDir : String)
    (progress : ReconProgress) (s : Sys) :
    stage.run env domain outputDir progress s = stage.normal env domain outputDir progress s := by
  cases stage <;>
    simp only [Stage.run, Stage.normal, Stage.flag, Stage.body, Stage.setDone,
      enumerateSubdomains, collectURLs, findDirectories, extractGFPatterns, extractJSFiles] <;>
    split_ifs <;> simp_all

@[simp] theorem feroxLoop_effect (env : Env) (d : String) (l : List String) :
    ∀ (i : Nat) (v : Vis), (feroxLoop env d i l v).events.all Event.isEffect = true := by
  induction l with
  | nil => intro i v; simp [feroxLoop]
  | cons t rest ih =>
    intro i v
    unfold feroxLoop
    split_ifs with h
    · simp
    · simp [ih, Event.isEffect]

@[simp] theorem gfLoop_effect (env : Env) (d u : String) (l : List String) :
    ∀ (v : Vis), (gfLoop env d u l v).events.all Event.isEffect = true := by
  induction l with
  | nil => intro v; simp [gfLoop]
  | cons t rest ih =>
    intro v
    simp [gfLoop, ih, Event.isEffect]

theorem Stage.body_effect (stage : Stage) (env : Env) (domain d : String) (v : Vis) :
    (stage.body env domain d v).events.all Event.isEffect = true := by
  cases stage <;>
    simp only [Stage.body, gfMerge, gfFinal, jsFinal] <;>
    (try split_ifs) <;>
    simp [Event.isEffect]

theorem calls_of_effect (l : List Event) (h : l.all Event.isEffect = true) : calls l = [] := by
  induction l with
  | nil => rfl
  | cons e rest ih =>
    simp only [List.all_cons, Bool.and_eq_true] at h
    cases e <;> simp_all [calls, Event.isEffect]

theorem save_not_mem_of_effect (l : List Event) (h : l.all Event.isEffect = true)
    (d : String) (q : ReconProgress) : Event.save d q ∉ l := by
  intro hm
  have := List.all_eq_true.mp h _ hm
  simp [Event.isEffect] at this

theorem logError_not_mem_of_effect (l : List Event) (h : l.all Event.isEffect = true)
    (st : Stage) (msg : String) : Event.logError st msg ∉ l := by
  intro hm
  have := List.all_eq_true.mp h _ hm
  simp [Event.isEffect] at this

@[simp] theorem calls_append (a b : List Event) : calls (a ++ b) = calls a ++ calls b := by
  simp [calls, List.filterMap_append]

theorem Stage.calls_run (stage : Stage) (env : Env) (domain d : String) (p : ReconProgress)
    (s : Sys) : calls (stage.run env domain d p s).events = [stage] := by
  have hb := calls_of_effect _ (stage.body_effect env domain d s.vis)
  rw [Stage.run_eq_normal]
  simp only [Stage.normal]
  split_ifs
  · simp [calls]
  · split
    · simpa [calls] using hb
    · have : ∀ l, calls (Event.call stage :: l) = stage :: calls l := fun l => by simp [calls]
      simp [this, hb]
      simp [calls]

theorem attempt_calls (env : Env) (domain d : String) (acc : Held) (stage : Stage) :
    calls (attempt env domain d acc stage).events = calls acc.events ++ [stage] := by
  simp only [attempt, calls_append, Stage.calls_run]
  split <;> simp [calls]

/-- Claim C3 (stage atomicity on failure).  For each of the five stage functions, every record
and every state of the outside world: if the stage returns an error, the record is unchanged
and the stage has not called `saveProgress`; if it returns no error, its own flag is true on
return; and a flag that the stage has set was set at the end of its body, with the record
saved last and no error returned. -/
theorem stage_atomic_on_failure (stage : Stage) (env : Env) (domain outputDir : String)
    (progress : ReconProgress) (s : Sys) :
    ((stage.run env domain outputDir progress s).err ≠ none →
      (stage.run env domain outputDir progress s).progress = progress ∧
      ∀ d q, Event.save d q ∉ (stage.run env domain outputDir progress s).events) ∧
    ((stage.run env domain outputDir progress s).err = none →
      stage.flag (stage.run env domain outputDir progress s).progress = true) ∧
    (stage.flag progress = false →
      stage.flag (stage.run env domain outputDir progress s).progress = true →
      (stage.run env domain outputDir progress s).err = none ∧
      (stage.run env domain outputDir progress s).events.getLast?
        = some (Event.save outputDir (stage.run env domain outputDir progress s).progress)) := by
  have hb := save_not_mem_of_effect _ (stage.body_effect env domain outputDir s.vis)
  rw [Stage.run_eq_normal]
  simp only [Stage.normal]
  split_ifs with h
  · simp [h]
  · split
    · simpa [h] using hb
    · refine ⟨by simp, ?_, ?_⟩
      · cases stage <;> simp [Stage.flag, Stage.setDone]
      · intro _ _
        refine ⟨rfl, ?_⟩
        rw [← List.cons_append, List.getLast?_append]
        simp

/-- Both cases occur: with subfinder failing `enumerateSubdomains` returns an error, and
`findDirectories` returns none even when every command fails. -/
theorem stage_atomic_on_failure_witness :
    ((enumerateSubdomains envAllFail "example.com" "reconcombo/example.com"
        (freshProgress "example.com") emptySys).progress = freshProgress "example.com" ∧
      ∀ d q, Event.save d q ∉ (enumerateSubdomains envAllFail "example.com"
        "reconcombo/example.com" (freshProgress "example.com") emptySys).events) ∧
    (findDirectories envAllFail "example.com" "reconcombo/example.com"
      (freshProgress "example.com") emptySys).progress.DirectoriesDone = true :=
  ⟨(stage_atomic_on_failure .subdomains envAllFail "example.com" "reconcombo/example.com"
      (freshProgress "example.com") emptySys).1 (by decide),
   (stage_atomic_on_failure .directories envAllFail "example.com" "reconcombo/example.com"
      (freshProgress "example.com") emptySys).2.1 (by decide)⟩

/-- Claim C4 (best-effort coordinator).  For every domain that is not empty after trimming and
whose working directory can be created, `performRecon` enters each of the five stage functions
exactly once, in the order subdomains, URLs, directories, GF patterns, JS files, whatever the
external commands do and whatever errors the stages return, and itself returns no error. -/
theorem performRecon_best_effort (env : Env) (domain : String) (s : Sys)
    (hne : trimSpace domain ≠ "")
    (hmk : env.mkdirOk (join "reconcombo" (trimSpace domain)) s.vis = true) :
    (performRecon env domain s).err = none ∧
    calls (performRecon env domain s).events = stageOrder := by
  simp only [performRecon, hne, createOutputDir, hmk, if_true, if_false, reconFrom, finishRecon,
    reconStages, calls_append, attempt_calls, saveProgress_events]
  simp [calls, stageOrder]

/-- A run on a domain with a leading blank, in which every external command fails. -/
theorem performRecon_best_effort_witness :
    (performRecon envAllFail " example.com" emptySys).err = none ∧
    calls (performRecon envAllFail " example.com" emptySys).events = stageOrder :=
  performRecon_best_effort envAllFail " example.com" emptySys (by decide) (by decide)

/-- Claim C8, as the code has it.  In `collectURLs`, run with `URLCollectionDone` false, the uro
filter and the final httpx-toolkit filter are the two commands whose failure is fatal: when
both succeed the stage sets `URLCollectionDone`, saves the record and returns no error,
whatever the gau commands did; when uro fails, or when httpx-toolkit fails, the stage returns
an error and leaves the record as it was. -/
theorem collectURLs_failure_policy (env : Env) (domain d : String) (p : ReconProgress) (s : Sys)
    (hrun : p.URLCollectionDone = false) :
    (Event.shell "cat %s | uro > %s" [join d "gau_tmp.txt", join d "uro_tmp.txt"] "" true
        ∈ (collectURLs env domain d p s).events →
      Event.cmd "httpx-toolkit" (httpxArgs (join d "uro_tmp.txt") (join d "urls.txt")) "" true
        ∈ (collectURLs env domain d p s).events →
      (collectURLs env domain d p s).err = none ∧
      (collectURLs env domain d p s).progress.URLCollectionDone = true ∧
      Event.save d (collectURLs env domain d p s).progress
        ∈ (collectURLs env domain d p s).events) ∧
    (Event.shell "cat %s | uro > %s" [join d "gau_tmp.txt", join d "uro_tmp.txt"] "" false
        ∈ (collectURLs env domain d p s).events →
      (collectURLs env domain d p s).err = some "uro filtering failed" ∧
      (collectURLs env domain d p s).progress = p) ∧
    (Event.cmd "httpx-toolkit" (httpxArgs (join d "uro_tmp.txt") (join d "urls.txt")) "" false
        ∈ (collectURLs env domain d p s).events →
      (collectURLs env domain d p s).err = some "httpx filtering failed" ∧
      (collectURLs env domain d p s).progress = p) := by
  simp only [collectURLs, hrun]
  split_ifs <;> simp_all

/-- Counterexample to claim C8 as stated: with uro succeeding and httpx-toolkit failing,
`collectURLs` returns an error and does not set `URLCollectionDone`. -/
theorem collectURLs_httpx_failure_is_fatal :
    Event.shell "cat %s | uro > %s"
        ["reconcombo/example.com/gau_tmp.txt", "reconcombo/example.com/uro_tmp.txt"] "" true
      ∈ (collectURLs envHttpxFails "example.com" "reconcombo/example.com" {} emptySys).events ∧
    (collectURLs envHttpxFails "example.com" "reconcombo/example.com" {} emptySys).err
      = some "httpx filtering failed" ∧
    (collectURLs envHttpxFails "example.com" "reconcombo/example.com" {}
      emptySys).progress.URLCollectionDone = false := by
  decide

/-- A run in which uro and httpx-toolkit succeed. -/
theorem collectURLs_failure_policy_witness :
    (collectURLs envNoMatches "example.com" "reconcombo/example.com" {} emptySys).err = none ∧
    (collectURLs envNoMatches "example.com" "reconcombo/example.com" {}
      emptySys).progress.URLCollectionDone = true ∧
    Event.save "reconcombo/example.com"
        (collectURLs envNoMatches "example.com" "reconcombo/example.com" {} emptySys).progress
      ∈ (collectURLs envNoMatches "example.com" "reconcombo/example.com" {} emptySys).events :=
  (collectURLs_failure_policy envNoMatches "example.com" "reconcombo/example.com" {} emptySys
    rfl).1 (by decide) (by decide)

/-- Claim C9, as the code has it.  `extractGFPatterns`, run with its flag clear and `urls.txt`
present: when `gfpatterns_tmp.txt` exists after the merge and has zero lines, `gfpatterns.txt`
exists after the stage and has zero lines; when `gfpatterns_tmp.txt` was not produced, the
stage completes and leaves the files as the merge left them.  `extractJSFiles`, run with its
flag clear and `urls.txt` present: when the filter command succeeds and `jsfiles_tmp.txt` has
zero lines or was not produced, `jsfiles.txt` exists after the stage and has zero lines.
The lines of the intermediate list are counted as `countLines` counts them. -/
theorem empty_artifact (env : Env) (domain d : String) (p : ReconProgress) (s : Sys)
    (hurls : osStat s.vis (join d "urls.txt") = true) :
    (p.GFPatternsDone = false →
      osStat (gfMerge env d s.vis).vis (join d "gfpatterns_tmp.txt") = true →
      (countLines (gfMerge env d s.vis).vis (join d "gfpatterns_tmp.txt")).1 = 0 →
      (extractGFPatterns env domain d p s).err = none ∧
      osStat (extractGFPatterns env domain d p s).sys.vis (join d "gfpatterns.txt") = true ∧
      countLines (extractGFPatterns env domain d p s).sys.vis (join d "gfpatterns.txt")
        = (0, false)) ∧
    (p.GFPatternsDone = false →
      osStat (gfMerge env d s.vis).vis (join d "gfpatterns_tmp.txt") = false →
      (extractGFPatterns env domain d p s).err = none ∧
      (extractGFPatterns env domain d p s).sys.vis = (gfMerge env d s.vis).vis) ∧
    (p.JSFilesDone = false →
      (jsFilter env d s.vis).val = true →
      (countLines (jsFilter env d s.vis).vis (join d "jsfiles_tmp.txt")).1 = 0 →
      (extractJSFiles env domain d p s).err = none ∧
      osStat (extractJSFiles env domain d p s).sys.vis (join d "jsfiles.txt") = true ∧
      countLines (extractJSFiles env domain d p s).sys.vis (join d "jsfiles.txt")
        = (0, false)) := by
  have hcreated : ∀ (v : Vis) (f : String),
      osStat (osCreate f v) f = true ∧ countLines (osCreate f v) f = (0, false) := by
    intro v f
    simp [osStat, osCreate, Vis.write, countLines, scanLines, scanFailed, scanLinesAux]
  refine ⟨?_, ?_, ?_⟩
  · intro hrun hex hzero
    have hfin : (gfFinal env d (gfMerge env d s.vis).vis).vis
        = osCreate (join d "gfpatterns.txt") (gfMerge env d s.vis).vis := by
      simp [gfFinal, hex, hzero]
    simp only [extractGFPatterns, hrun, hurls, saveProgress_vis, hfin]
    simpa using hcreated _ _
  · intro hrun hex
    have hfin : (gfFinal env d (gfMerge env d s.vis).vis).vis = (gfMerge env d s.vis).vis := by
      simp [gfFinal, hex]
    simp only [extractGFPatterns, hrun, hurls, saveProgress_vis, hfin]
    simp
  · intro hrun hok hzero
    have hfin : (jsFinal env d (jsFilter env d s.vis).vis).vis
        = osCreate (join d "jsfiles.txt") (jsFilter env d s.vis).vis := by
      simp [jsFinal, hzero]
    simp only [extractJSFiles, hrun, hurls, hok, saveProgress_vis, hfin]
    simpa using hcreated _ _

/-- A run in which both intermediate lists are produced empty. -/
theorem empty_artifact_witness :
    ((extractGFPatterns envNoMatches "example.com" "reconcombo/example.com" {}
        urlsOnlySys).err = none ∧
      osStat (extractGFPatterns envNoMatches "example.com" "reconcombo/example.com" {}
        urlsOnlySys).sys.vis (join "reconcombo/example.com" "gfpatterns.txt") = true ∧
      countLines (extractGFPatterns envNoMatches "example.com" "reconcombo/example.com" {}
        urlsOnlySys).sys.vis (join "reconcombo/example.com" "gfpatterns.txt") = (0, false)) ∧
    ((extractJSFiles envNoMatches "example.com" "reconcombo/example.com" {}
        urlsOnlySys).err = none ∧
      osStat (extractJSFiles envNoMatches "example.com" "reconcombo/example.com" {}
        urlsOnlySys).sys.vis (join "reconcombo/example.com" "jsfiles.txt") = true ∧
      countLines (extractJSFiles envNoMatches "example.com" "reconcombo/example.com" {}
        urlsOnlySys).sys.vis (join "reconcombo/example.com" "jsfiles.txt") = (0, false)) :=
  ⟨(empty_artifact envNoMatches "example.com" "reconcombo/example.com" {} urlsOnlySys
      (by decide)).1 rfl (by decide) (by decide),
   (empty_artifact envNoMatches "example.com" "reconcombo/example.com" {} urlsOnlySys
      (by decide)).2.2 rfl (by decide) (by decide)⟩

/-- Counterexample to claim C9 as stated: `urls.txt` exists, every external command fails, so
`gfpatterns_tmp.txt` is not produced; `extractGFPatterns` completes, sets its flag, and
`gfpatterns.txt` does not exist afterwards. -/
theorem gfpatterns_absent_when_merge_produces_nothing :
    osStat urlsOnlySys.vis (join "reconcombo/example.com" "urls.txt") = true ∧
    osStat (gfMerge envAllFail "reconcombo/example.com" urlsOnlySys.vis).vis
      (join "reconcombo/example.com" "gfpatterns_tmp.txt") = false ∧
    (extractGFPatterns envAllFail "example.com" "reconcombo/example.com" {}
      urlsOnlySys).err = none ∧
    (extractGFPatterns envAllFail "example.com" "reconcombo/example.com" {}
      urlsOnlySys).progress.GFPatternsDone = true ∧
    osStat (extractGFPatterns envAllFail "example.com" "reconcombo/example.com" {}
      urlsOnlySys).sys.vis (join "reconcombo/example.com" "gfpatterns.txt") = false := by
  decide

/-! ## Lines -/

theorem isSpace_cr : isSpace '\r' = true := by decide

theorem trimRight_append_space (l : List Char) (c : Char) (hc : isSpace c = true) :
    trimRight (l ++ [c]) = trimRight l := by
  simp [trimRight, List.dropWhile_cons, hc]

theorem trimSpaceChars_dropCR (l : List Char) : trimSpaceChars (dropCR l) = trimSpaceChars l := by
  unfold dropCR
  split_ifs with h
  · have hl : l = l.dropLast ++ ['\r'] := (List.dropLast_append_getLast? _ h).symm
    conv_rhs => rw [hl]
    simp [trimSpaceChars, trimRight_append_space _ _ isSpace_cr]
  · rfl

theorem trimSpaceChars_nil : trimSpaceChars [] = [] := rfl

/-- The tokens of the scanner and the lines of the text that come before the first over-long
one give the same trimmed lines once the blank ones are dropped. -/
theorem scan_filter_eq_split_filter (P : List Char → Bool) (hP : P [] = false)
    (rest : List Char) :
    ∀ cur : List Char,
      ((scanLinesAux cur rest).1.map trimSpaceChars).filter P
        = (((splitNewlineAux cur rest).takeWhile fitsChars).map trimSpaceChars).filter P := by
  induction rest with
  | nil =>
    intro cur
    simp only [scanLinesAux, splitNewlineAux]
    by_cases h : cur = []
    · subst h
      have hfit : fitsChars [] = true := by decide
      simp [List.takeWhile_cons, hfit, trimSpaceChars_nil, hP]
    · by_cases hf : fitsChars cur.reverse = true
      · simp [h, hf, List.takeWhile_cons, trimSpaceChars_dropCR]
      · simp [h, hf, List.takeWhile_cons]
  | cons c cs ih =>
    intro cur
    simp only [scanLinesAux, splitNewlineAux]
    by_cases h : c = '\n'
    · by_cases hf : fitsChars cur.reverse = true
      · simp only [h, hf, if_true, List.takeWhile_cons, List.map_cons, List.filter_cons,
          trimSpaceChars_dropCR, ih]
      · simp [h, hf, List.takeWhile_cons]
    · simp only [h, if_false]
      exact ih _

theorem trimSpace_mk (l : List Char) : trimSpace ⟨l⟩ = ⟨trimSpaceChars l⟩ := rfl

theorem scanLines_trim_filter (P : String → Bool) (hP : P "" = false) (content : String) :
    ((scanLines content).map trimSpace).filter P
      = ((specLinesRead content).map trimSpace).filter P := by
  have h := scan_filter_eq_split_filter (fun l => P ⟨l⟩) hP content.data []
  have key : ∀ L : List (List Char),
      ((L.map String.mk).map trimSpace).filter P
        = ((L.map trimSpaceChars).filter fun l => P ⟨l⟩).map String.mk := by
    intro L
    induction L with
    | nil => rfl
    | cons a L ih =>
      simp only [List.map_cons, List.filter_cons, trimSpace_mk]
      split_ifs <;> simp_all
  have htake : ∀ L : List (List Char),
      (L.map String.mk).takeWhile fitsScanner = (L.takeWhile fitsChars).map String.mk := by
    intro L
    rw [List.takeWhile_map]
    rfl
  simp only [scanLines, specLines, specLinesRead, htake, key, h]

/-- When every line fits the buffer, the lines read are all the lines. -/
theorem specLinesRead_eq (content : String)
    (hfit : ∀ l ∈ specLines content, fitsScanner l = true) :
    specLinesRead content = specLines content :=
  List.takeWhile_eq_self_iff.mpr hfit

theorem batchLoop_eq (lines : List String) :
    ∀ launched : List String,
      batchLoop lines launched
        = launched ++ (lines.map trimSpace).filter
            fun d => decide (d ≠ "") && !startsWith d "#" := by
  induction lines with
  | nil => intro launched; simp [batchLoop]
  | cons line rest ih =>
    intro launched
    simp only [batchLoop, List.map_cons, List.filter_cons]
    split_ifs with h1 h2 h2
    · rcases h1 with h1 | h1 <;> simp [h1] at h2
    · exact ih _
    · simp [ih]
    · exfalso
      apply h2
      by_contra hne
      simp only [not_or] at h1
      simp [h1.1] at hne
      exact h1.2 hne

/-! ## Lines that exceed the buffer of the scanner -/

theorem scanLinesAux_append (line : List Char) (hline : '\n' ∉ line) :
    ∀ cur rest : List Char,
      scanLinesAux cur (line ++ rest) = scanLinesAux (line.reverse ++ cur) rest := by
  induction line with
  | nil => intro cur rest; rfl
  | cons c cs ih =>
    intro cur rest
    have hc : c ≠ '\n' := fun h => hline (h ▸ List.mem_cons_self _ _)
    have hcs : '\n' ∉ cs := fun h => hline (List.mem_cons_of_mem _ h)
    have hstep : scanLinesAux cur (c :: (cs ++ rest)) = scanLinesAux (c :: cur) (cs ++ rest) := by
      simp only [scanLinesAux, hc, if_false]
    rw [List.cons_append, hstep, ih hcs, List.reverse_cons, List.append_assoc,
      List.singleton_append]

/-- The scanner stops with an error at a first line that does not fit its buffer. -/
theorem scanLines_long (line rest : List Char) (hline : '\n' ∉ line)
    (hlong : fitsChars line = false) :
    scanLines ⟨line ++ '\n' :: rest⟩ = [] ∧ scanFailed ⟨line ++ '\n' :: rest⟩ = true := by
  have h : scanLinesAux [] (line ++ '\n' :: rest) = ([], true) := by
    rw [scanLinesAux_append line hline]
    simp [scanLinesAux, hlong]
  simp [scanLines, scanFailed, h]

theorem splitNewlineAux_append (line : List Char) (hline : '\n' ∉ line) :
    ∀ cur rest : List Char,
      splitNewlineAux cur (line ++ rest) = splitNewlineAux (line.reverse ++ cur) rest := by
  induction line with
  | nil => intro cur rest; rfl
  | cons c cs ih =>
    intro cur rest
    have hc : c ≠ '\n' := fun h => hline (h ▸ List.mem_cons_self _ _)
    have hcs : '\n' ∉ cs := fun h => hline (List.mem_cons_of_mem _ h)
    have hstep : splitNewlineAux cur (c :: (cs ++ rest)) = splitNewlineAux (c :: cur) (cs ++ rest) := by
      simp only [splitNewlineAux, hc, if_false]
    rw [List.cons_append, hstep, ih hcs, List.reverse_cons, List.append_assoc,
      List.singleton_append]

theorem specLines_cons (line rest : List Char) (hline : '\n' ∉ line) :
    specLines ⟨line ++ '\n' :: rest⟩ = ⟨line⟩ :: specLines ⟨rest⟩ := by
  simp [specLines, splitNewlineAux_append line hline, splitNewlineAux]

theorem byteLen_replicate (n : Nat) (c : Char) :
    byteLen (List.replicate n c) = n * utf8Len c := by
  induction n with
  | zero => simp [byteLen]
  | succ n ih =>
    simp only [byteLen, List.replicate_succ, List.map_cons, List.sum_cons] at ih ⊢
    rw [ih]; ring

theorem longLine_no_newline : '\n' ∉ longLine := by
  intro h
  exact absurd (List.eq_of_mem_replicate h) (by decide)

theorem longLine_too_long : fitsChars longLine = false := by
  have h : byteLen longLine = maxScanTokenSize * 1 := by
    rw [longLine, byteLen_replicate]
    rfl
  simp [fitsChars, h]

/-- Claim C5, as the code has it.  For every content of the batch file, the domains for which
`main` starts `performRecon` are, in file order, the whitespace-trimmed lines that are not
empty and do not begin with `#`, among the lines that come before the first line of 65536
bytes or more, where the scanner stops; so they are all such lines of the file when every
line is shorter than 65536 bytes.  For the content `a.com`, `# comment`, blank, `b.com` they
are `a.com` then `b.com`. -/
theorem batch_file_filtering (content : String) :
    batchLaunches content
      = ((specLinesRead content).map trimSpace).filter
          (fun d => decide (d ≠ "") && !startsWith d "#") ∧
    ((∀ l ∈ specLines content, fitsScanner l = true) →
      batchLaunches content = specBatchDomains content) ∧
    batchLaunches "a.com\n# comment\n\nb.com\n" = ["a.com", "b.com"] := by
  have h : batchLaunches content
      = ((specLinesRead content).map trimSpace).filter
          (fun d => decide (d ≠ "") && !startsWith d "#") := by
    simp only [batchLaunches, batchLoop_eq, List.nil_append]
    exact scanLines_trim_filter _ (by decide) content
  refine ⟨h, fun hfit => ?_, by decide⟩
  rw [h, specLinesRead_eq content hfit, specBatchDomains]

/-- The batch file of the specification: its lines fit, and two scans are started. -/
theorem batch_file_filtering_witness :
    batchLaunches "a.com\n# comment\n\nb.com\n"
      = specBatchDomains "a.com\n# comment\n\nb.com\n" :=
  (batch_file_filtering "a.com\n# comment\n\nb.com\n").2.1 (by decide)

/-- Counterexample to claim C5 as stated: in the batch file `longBatch` the line `c.com` is
not empty and does not begin with `#`, yet no scan is started for it: the scanner stops with
an error at the first line, which has 65536 bytes. -/
theorem batch_scan_stops_at_long_line :
    batchLaunches longBatch = [] ∧
    scanFailed longBatch = true ∧
    "c.com" ∈ specBatchDomains longBatch := by
  have hscan := scanLines_long longLine "c.com\n".data longLine_no_newline longLine_too_long
  refine ⟨?_, hscan.2, ?_⟩
  · rw [batchLaunches, longBatch, hscan.1]; rfl
  · rw [specBatchDomains, longBatch, specLines_cons _ _ longLine_no_newline, List.map_cons]
    exact List.mem_filter.mpr ⟨List.mem_cons_of_mem _ (by decide), by decide⟩

/-! ## Directory discovery -/

theorem withScheme_eq (t : String) :
    (if (!startsWith t "http://" && !startsWith t "https://") = true then "https://" ++ t
      else t) = withScheme t := by
  unfold withScheme
  cases startsWith t "http://" <;> cases startsWith t "https://" <;> simp

theorem readTargets_eq (lines : List String) :
    ∀ acc : List String,
      readTargets lines acc
        = acc ++ (((lines.map trimSpace).filter fun t => decide (t ≠ "")).map withScheme) := by
  induction lines with
  | nil => intro acc; simp [readTargets]
  | cons line rest ih =>
    intro acc
    simp only [readTargets, List.map_cons, List.filter_cons, withScheme_eq]
    by_cases h : trimSpace line = "" <;> simp [h, ih]

theorem directoryTargets_eq (domain d content : String) (v : Vis)
    (hfile : v.files (join d "subdomains_live.txt") = some content) :
    directoryTargets domain d v = specTargetsRead domain content := by
  simp only [directoryTargets, hfile, readTargets_eq, specTargetsRead, List.singleton_append]
  rw [scanLines_trim_filter (fun t => decide (t ≠ "")) (by decide)]

@[simp] theorem directCmds_append (a b : List Event) :
    directCmds (a ++ b) = directCmds a ++ directCmds b := by
  simp [directCmds, List.filterMap_append]

theorem feroxLoop_cmds (env : Env) (d : String) (l : List String) :
    ∀ (i : Nat) (v : Vis),
      directCmds (feroxLoop env d i l v).events
        = ((l.take (5 - i)).enumFrom i).map (feroxInvocation d) := by
  induction l with
  | nil => intro i v; simp [feroxLoop, directCmds]
  | cons t rest ih =>
    intro i v
    unfold feroxLoop
    split_ifs with h
    · have : 5 - i = 0 := by omega
      simp [this, directCmds]
    · have h5 : 5 - i = (5 - (i + 1)) + 1 := by omega
      rw [h5, List.take_succ_cons, List.enumFrom_cons, List.map_cons]
      simp only [directCmds_append, ih]
      simp [directCmds, feroxInvocation]

/-- The invocations of feroxbuster of a stage that runs are one for each of the first five
entries of the slice `subdomains`. -/
theorem findDirectories_feroxRuns (env : Env) (domain d : String) (p : ReconProgress)
    (s : Sys) (hrun : p.DirectoriesDone = false) :
    feroxRuns (findDirectories env domain d p s).events
      = (((directoryTargets domain d s.vis).take 5).enum).map (feroxInvocation d) := by
  simp only [feroxRuns, findDirectories, hrun, Bool.false_eq_true, if_false]
  have hcons : ∀ l, directCmds (Event.call Stage.directories :: l) = directCmds l :=
    fun l => by simp [directCmds]
  simp only [hcons, directCmds_append, feroxLoop_cmds, List.filter_append]
  simp [directCmds, List.enum, List.filter_eq_self, feroxInvocation]
  intro a b x t _ ha _
  exact ha.symm

/-- Claim C10, as the code has it.  When `findDirectories` runs (its flag is clear), for every
domain and every content of `subdomains_live.txt`, the invocations of feroxbuster are exactly,
in order, one for each of the first 5 entries of the list that starts with `https://` + domain
and continues with the non-blank trimmed lines of the file that come before its first line of
65536 bytes or more (all its lines, when every line is shorter), each with `https://` in front
unless it already starts with `http://` or `https://`; the invocation numbered `i` (from 0)
writes `ferox_tmp_i.txt`; the first one scans the root domain; their number is
`min 5 (1 + number of those non-blank lines)`. -/
theorem directory_targets_and_cap (env : Env) (domain d content : String) (p : ReconProgress)
    (s : Sys) (hrun : p.DirectoriesDone = false)
    (hfile : s.vis.files (join d "subdomains_live.txt") = some content) :
    feroxRuns (findDirectories env domain d p s).events
      = (((specTargetsRead domain content).take 5).enum).map (feroxInvocation d) ∧
    (feroxRuns (findDirectories env domain d p s).events).head?
      = some (feroxInvocation d (0, "https://" ++ domain)) ∧
    (feroxRuns (findDirectories env domain d p s).events).length
      = min 5 (1 + (((specLinesRead content).map trimSpace).filter
          fun t => decide (t ≠ "")).length) ∧
    ((∀ l ∈ specLines content, fitsScanner l = true) →
      feroxRuns (findDirectories env domain d p s).events
        = (((specTargetList domain content).take 5).enum).map (feroxInvocation d) ∧
      (feroxRuns (findDirectories env domain d p s).events).length
        = min 5 (1 + (((specLines content).map trimSpace).filter
            fun t => decide (t ≠ "")).length)) := by
  have hcmds : feroxRuns (findDirectories env domain d p s).events
      = (((specTargetsRead domain content).take 5).enum).map (feroxInvocation d) := by
    rw [findDirectories_feroxRuns env domain d p s hrun,
      directoryTargets_eq domain d content s.vis hfile]
  have hlen : (feroxRuns (findDirectories env domain d p s).events).length
      = min 5 (1 + (((specLinesRead content).map trimSpace).filter
          fun t => decide (t ≠ "")).length) := by
    rw [hcmds]
    simp [specTargetsRead, List.enum]
    omega
  refine ⟨hcmds, ?_, hlen, fun hfit => ?_⟩
  · rw [hcmds]
    simp [specTargetsRead, List.enum, List.enumFrom_cons]
  · have hread := specLinesRead_eq content hfit
    refine ⟨?_, ?_⟩
    · rw [hcmds, specTargetsRead, hread, specTargetList]
    · rw [hlen, hread]

/-- A run on a file of six hosts and a blank line, all short: seven targets, five
invocations. -/
theorem directory_targets_and_cap_witness :
    feroxRuns (findDirectories envAllFail "example.com" "reconcombo/example.com" {}
        liveSys).events
      = (((specTargetList "example.com" liveContent).take 5).enum).map
          (feroxInvocation "reconcombo/example.com") ∧
    (feroxRuns (findDirectories envAllFail "example.com" "reconcombo/example.com" {}
        liveSys).events).length
      = min 5 (1 + (((specLines liveContent).map trimSpace).filter
          fun t => decide (t ≠ "")).length) :=
  (directory_targets_and_cap envAllFail "example.com" "reconcombo/example.com" liveContent {}
    liveSys rfl (by decide)).2.2.2 (by decide)

/-- Counterexample to claim C10 as stated.  With `DirectoriesDone` already set the stage runs
feroxbuster on no target, not even the root domain.  With the flag clear and the file
`longLive`, whose first line has 65536 bytes, the reading loop stops at that line: feroxbuster
runs on the root domain only, although the file has the non-blank line `c.example.com`, so
that `min 5 (1 + number of non-blank lines)` is at least 2. -/
theorem directory_scan_counterexample :
    feroxRuns (findDirectories envAllFail "example.com" "reconcombo/example.com"
        { DirectoriesDone := true } liveSys).events = [] ∧
    feroxRuns (findDirectories envAllFail "example.com" "reconcombo/example.com" {}
        longLiveSys).events
      = [feroxInvocation "reconcombo/example.com" (0, "https://example.com")] ∧
    2 ≤ min 5 (1 + (((specLines longLive).map trimSpace).filter
          fun t => decide (t ≠ "")).length) := by
  have hscan := scanLines_long longLine "c.example.com\n".data longLine_no_newline
    longLine_too_long
  refine ⟨by decide, ?_, ?_⟩
  · have hfile : longLiveSys.vis.files (join "reconcombo/example.com" "subdomains_live.txt")
        = some longLive := by
      simp only [longLiveSys]
      rw [if_pos (by decide)]
    have htargets : directoryTargets "example.com" "reconcombo/example.com" longLiveSys.vis
        = ["https://example.com"] := by
      rw [directoryTargets, hfile]
      simp only []
      rw [longLive, hscan.1]
      decide
    rw [findDirectories_feroxRuns _ _ _ _ _ rfl, htargets]
    decide
  · have hmem : "c.example.com" ∈ ((specLines longLive).map trimSpace).filter
        (fun t => decide (t ≠ "")) := by
      rw [longLive, specLines_cons _ _ longLine_no_newline, List.map_cons]
      exact List.mem_filter.mpr ⟨List.mem_cons_of_mem _ (by decide), by decide⟩
    have hpos := List.length_pos_of_mem hmem
    omega

/-! ## Facts about one stage, from its normal form -/

theorem Stage.flag_setDone (st st1 : Stage) (p : ReconProgress) :
    st1.flag (st.setDone p) = (decide (st1 = st) || st1.flag p) := by
  cases st <;> cases st1 <;> simp [Stage.flag, Stage.setDone]

theorem Stage.flag_stamp (st : Stage) (p : ReconProgress) (n : Nat) :
    st.flag { p with LastUpdated := n } = st.flag p := by
  cases st <;> rfl

theorem Stage.completed_setDone (st : Stage) (p : ReconProgress) :
    (st.setDone p).Completed = p.Completed := by
  cases st <;> rfl

/-- A stage whose flag is set does nothing. -/
theorem Stage.run_skip (st : Stage) (env : Env) (domain d : String) (p : ReconProgress) (s : Sys)
    (h : st.flag p = true) :
    st.run env domain d p s = ⟨none, p, s, [Event.call st]⟩ := by
  rw [Stage.run_eq_normal]; simp [Stage.normal, h]

theorem Stage.run_completed (st : Stage) (env : Env) (domain d : String) (p : ReconProgress)
    (s : Sys) : (st.run env domain d p s).progress.Completed = p.Completed := by
  rw [Stage.run_eq_normal]; simp only [Stage.normal]
  split_ifs
  · rfl
  · split
    · rfl
    · simp [Stage.completed_setDone]

theorem Stage.run_saves (st : Stage) (env : Env) (domain d : String) (p : ReconProgress)
    (s : Sys) (dd : String) (q : ReconProgress)
    (h : Event.save dd q ∈ (st.run env domain d p s).events) : q.Completed = p.Completed := by
  have hb := save_not_mem_of_effect _ (st.body_effect env domain d s.vis) dd q
  rw [Stage.run_eq_normal] at h; simp only [Stage.normal] at h
  split_ifs at h
  · simp at h
  · split at h
    · simp [hb] at h
    · simp [hb] at h
      rw [h.2]; simp [Stage.completed_setDone]

theorem Stage.run_no_logError (st : Stage) (env : Env) (domain d : String) (p : ReconProgress)
    (s : Sys) (st1 : Stage) (msg : String) :
    Event.logError st1 msg ∉ (st.run env domain d p s).events := by
  have hb := logError_not_mem_of_effect _ (st.body_effect env domain d s.vis) st1 msg
  rw [Stage.run_eq_normal]; simp only [Stage.normal]
  split_ifs
  · simp
  · split <;> simp [hb]

theorem Stage.run_flag_iff (st : Stage) (env : Env) (domain d : String) (p : ReconProgress)
    (s : Sys) :
    st.flag (st.run env domain d p s).progress = true ↔ (st.run env domain d p s).err = none := by
  rw [Stage.run_eq_normal]; simp only [Stage.normal]
  split_ifs with h
  · simp [h]
  · split
    · simp [h]
    · simp [Stage.flag_stamp, Stage.flag_setDone]

theorem Stage.run_flag_other (st st1 : Stage) (env : Env) (domain d : String)
    (p : ReconProgress) (s : Sys) (hne : st1 ≠ st) :
    st1.flag (st.run env domain d p s).progress = st1.flag p := by
  rw [Stage.run_eq_normal]; simp only [Stage.normal]
  split_ifs with h
  · rfl
  · split
    · rfl
    · simp [Stage.flag_stamp, Stage.flag_setDone, hne]

/-- What a stage does to the files, the error it returns and the flags it leaves depend on
the record through its flags only, and on the state through the files only. -/
theorem Stage.run_sim (st : Stage) (env : Env) (domain d : String) (p q : ReconProgress)
    (s t : Sys) (hf : ∀ st1 : Stage, st1.flag p = st1.flag q) (hv : s.vis = t.vis) :
    (st.run env domain d p s).err = (st.run env domain d q t).err ∧
    (st.run env domain d p s).sys.vis = (st.run env domain d q t).sys.vis ∧
    ∀ st1 : Stage, st1.flag (st.run env domain d p s).progress
      = st1.flag (st.run env domain d q t).progress := by
  rw [Stage.run_eq_normal, Stage.run_eq_normal]; simp only [Stage.normal, hf st, hv]
  split_ifs with h
  · exact ⟨rfl, hv, hf⟩
  · split
    · exact ⟨rfl, rfl, hf⟩
    · refine ⟨rfl, rfl, fun st1 => ?_⟩
      simp [Stage.flag_stamp, Stage.flag_setDone, hf st1]

/-! ## Facts about the sequence of stages -/

theorem reconStages_eq (env : Env) (domain d : String) (p : ReconProgress) (s : Sys) :
    reconStages env domain d p s = stagesFrom env domain d ⟨p, s, []⟩ stageOrder := rfl

theorem stagesFrom_cons (env : Env) (domain d : String) (acc : Held) (st : Stage)
    (l : List Stage) :
    stagesFrom env domain d acc (st :: l)
      = stagesFrom env domain d (attempt env domain d acc st) l := rfl

theorem attempt_logError (env : Env) (domain d : String) (acc : Held) (st st1 : Stage)
    (msg : String) :
    Event.logError st1 msg ∈ (attempt env domain d acc st).events ↔
      Event.logError st1 msg ∈ acc.events ∨
        (st1 = st ∧ (st.run env domain d acc.val acc.sys).err = some msg) := by
  have h := Stage.run_no_logError st env domain d acc.val acc.sys st1 msg
  simp only [attempt, List.mem_append, h, or_false]
  cases herr : (st.run env domain d acc.val acc.sys).err with
  | none => simp
  | some m =>
    simp only [List.mem_singleton, Event.logError.injEq, Option.some.injEq]
    constructor
    · rintro (h1 | ⟨h1, h2⟩)
      · exact Or.inl h1
      · exact Or.inr ⟨h1, h2.symm⟩
    · rintro (h1 | ⟨h1, h2⟩)
      · exact Or.inl h1
      · exact Or.inr ⟨h1, h2.symm⟩

theorem attempt_completed (env : Env) (domain d : String) (acc : Held) (st : Stage) :
    (attempt env domain d acc st).val.Completed = acc.val.Completed :=
  Stage.run_completed st env domain d acc.val acc.sys

theorem attempt_saves (env : Env) (domain d : String) (acc : Held) (st : Stage)
    (h : ∀ dd q, Event.save dd q ∈ acc.events → q.Completed = acc.val.Completed) :
    ∀ dd q, Event.save dd q ∈ (attempt env domain d acc st).events →
      q.Completed = (attempt env domain d acc st).val.Completed := by
  intro dd q hm
  rw [attempt_completed]
  simp only [attempt, List.mem_append] at hm
  rcases hm with (hm | hm) | hm
  · exact h dd q hm
  · exact Stage.run_saves st env domain d _ _ dd q hm
  · split at hm <;> simp at hm

theorem stagesFrom_saves (env : Env) (domain d : String) (l : List Stage) :
    ∀ acc : Held,
      (∀ dd q, Event.save dd q ∈ acc.events → q.Completed = acc.val.Completed) →
      (stagesFrom env domain d acc l).val.Completed = acc.val.Completed ∧
      ∀ dd q, Event.save dd q ∈ (stagesFrom env domain d acc l).events →
        q.Completed = acc.val.Completed := by
  induction l with
  | nil => intro acc h; exact ⟨rfl, h⟩
  | cons st l ih =>
    intro acc h
    have := ih (attempt env domain d acc st) (attempt_saves env domain d acc st h)
    rw [attempt_completed] at this
    exact this

/-- After the stages of a list without repetition, started with no error printed for them, a
stage of the list has its flag set exactly when no error was printed for it; the other
stages are as before. -/
theorem stagesFrom_flags (env : Env) (domain d : String) (l : List Stage) :
    l.Nodup → ∀ acc : Held,
      (∀ st ∈ l, ∀ msg, Event.logError st msg ∉ acc.events) →
      (∀ st ∈ l, (st.flag (stagesFrom env domain d acc l).val = true ↔
          ∀ msg, Event.logError st msg ∉ (stagesFrom env domain d acc l).events)) ∧
      (∀ st, st ∉ l →
        st.flag (stagesFrom env domain d acc l).val = st.flag acc.val ∧
        ∀ msg, (Event.logError st msg ∈ (stagesFrom env domain d acc l).events ↔
          Event.logError st msg ∈ acc.events)) := by
  induction l with
  | nil => intro _ acc _; simp [stagesFrom]
  | cons a l ih =>
    intro hnd acc hacc
    rw [List.nodup_cons] at hnd
    have hacc1 : ∀ st ∈ l, ∀ msg, Event.logError st msg ∉ (attempt env domain d acc a).events := by
      intro st hst msg
      rw [attempt_logError]
      have hne : st ≠ a := fun h => hnd.1 (h ▸ hst)
      simp [hne, hacc st (List.mem_cons_of_mem _ hst) msg]
    obtain ⟨ih1, ih2⟩ := ih hnd.2 (attempt env domain d acc a) hacc1
    simp only [stagesFrom_cons]
    constructor
    · intro st hst
      rcases List.mem_cons.mp hst with rfl | hst
      · obtain ⟨hflag, hlog⟩ := ih2 st hnd.1
        rw [hflag]
        simp only [hlog, attempt_logError, hacc st (List.mem_cons_self _ _), false_or, true_and]
        have := Stage.run_flag_iff st env domain d acc.val acc.sys
        simp only [attempt]
        rw [this]
        cases (st.run env domain d acc.val acc.sys).err <;> simp
      · exact ih1 st hst
    · intro st hst
      rw [List.mem_cons, not_or] at hst
      obtain ⟨hflag, hlog⟩ := ih2 st hst.2
      refine ⟨?_, fun msg => ?_⟩
      · rw [hflag]; exact Stage.run_flag_other a st env domain d _ _ hst.1
      · rw [hlog, attempt_logError]; simp [hst.1]

theorem mem_stageOrder (st : Stage) : st ∈ stageOrder := by
  cases st <;> simp [stageOrder]

theorem finishRecon_flag (env : Env) (d : String) (r : Held) (st : Stage) :
    st.flag (finishRecon env d r).val = st.flag r.val := by
  cases st <;> rfl

theorem finishRecon_logError (env : Env) (d : String) (r : Held) (st : Stage) (msg : String) :
    Event.logError st msg ∈ (finishRecon env d r).events ↔ Event.logError st msg ∈ r.events := by
  simp [finishRecon]

/-- Claim C2, as the code has it.  `performRecon` sets `Completed` at its end whatever the stage
flags are.  In a run from a record with `Completed` false: every record saved by the five
stages, and the record held after them, has `Completed` false; the final record, the one
saved last, has `Completed` true; and it has all five stage flags true exactly when no stage
returned an error. -/
theorem completed_set_unconditionally (env : Env) (domain d : String) (r : ReconProgress)
    (s : Sys) (h0 : r.Completed = false) :
    (∀ dd q, Event.save dd q ∈ (reconStages env domain d r s).events → q.Completed = false) ∧
    (reconStages env domain d r s).val.Completed = false ∧
    (reconFrom env domain d r s).val.Completed = true ∧
    Event.save d (reconFrom env domain d r s).val ∈ (reconFrom env domain d r s).events ∧
    (((reconFrom env domain d r s).val.SubdomainsDone = true ∧
      (reconFrom env domain d r s).val.URLCollectionDone = true ∧
      (reconFrom env domain d r s).val.DirectoriesDone = true ∧
      (reconFrom env domain d r s).val.GFPatternsDone = true ∧
      (reconFrom env domain d r s).val.JSFilesDone = true) ↔
     ∀ st msg, Event.logError st msg ∉ (reconFrom env domain d r s).events) := by
  have hs := stagesFrom_saves env domain d stageOrder ⟨r, s, []⟩ (by simp)
  have hf := (stagesFrom_flags env domain d stageOrder (by decide) ⟨r, s, []⟩ (by simp)).1
  rw [← reconStages_eq] at hs hf
  simp only [h0] at hs
  refine ⟨hs.2, hs.1, rfl, by simp [reconFrom, finishRecon], ?_⟩
  have hall : ∀ st : Stage, (st.flag (reconFrom env domain d r s).val = true ↔
      ∀ msg, Event.logError st msg ∉ (reconFrom env domain d r s).events) := by
    intro st
    simp only [reconFrom, finishRecon_flag, finishRecon_logError]
    exact hf st (mem_stageOrder st)
  constructor
  · rintro ⟨h1, h2, h3, h4, h5⟩ st
    cases st
    · exact (hall .subdomains).mp h1
    · exact (hall .urls).mp h2
    · exact (hall .directories).mp h3
    · exact (hall .gfPatterns).mp h4
    · exact (hall .jsFiles).mp h5
  · intro h
    exact ⟨(hall .subdomains).mpr (h _), (hall .urls).mpr (h _), (hall .directories).mpr (h _),
      (hall .gfPatterns).mpr (h _), (hall .jsFiles).mpr (h _)⟩

/-- A new scan in which `urls.txt` is never produced: the GF stage fails and `Completed` is set. -/
theorem completed_set_unconditionally_witness :
    (reconFrom envNoMatches "example.com" "reconcombo/example.com"
      (freshProgress "example.com") emptySys).val.Completed = true ∧
    ¬ ((reconFrom envNoMatches "example.com" "reconcombo/example.com"
        (freshProgress "example.com") emptySys).val.GFPatternsDone = true) ∧
    Event.logError .gfPatterns "urls.txt not found"
      ∈ (reconFrom envNoMatches "example.com" "reconcombo/example.com"
          (freshProgress "example.com") emptySys).events :=
  have h := completed_set_unconditionally envNoMatches "example.com" "reconcombo/example.com"
    (freshProgress "example.com") emptySys rfl
  ⟨h.2.2.1, by decide, by decide⟩

/-- Counterexample to claim C2 as stated: in a new scan in which every external command fails,
the last record `performRecon` saves, and holds when it returns, has `Completed` true while
`SubdomainsDone` (like `URLCollectionDone`, `GFPatternsDone` and `JSFilesDone`) is false. -/
theorem completed_without_all_flags :
    (performRecon envAllFail "example.com" emptySys).progress = some failedScan ∧
    Event.save "reconcombo/example.com" failedScan
      ∈ (performRecon envAllFail "example.com" emptySys).events ∧
    failedScan.Completed = true ∧
    failedScan.SubdomainsDone = false := by
  decide

/-! ## Resuming -/

theorem attempt_skip (env : Env) (domain d : String) (acc : Held) (st : Stage)
    (h : st.flag acc.val = true) :
    attempt env domain d acc st = ⟨acc.val, acc.sys, acc.events ++ [Event.call st]⟩ := by
  simp [attempt, Stage.run_skip st env domain d acc.val acc.sys h]

theorem stagesFrom_skip (env : Env) (domain d : String) (l : List Stage) :
    ∀ acc : Held, (∀ st ∈ l, st.flag acc.val = true) →
      stagesFrom env domain d acc l = ⟨acc.val, acc.sys, acc.events ++ l.map Event.call⟩ := by
  induction l with
  | nil => intro acc _; simp [stagesFrom]
  | cons a l ih =>
    intro acc h
    rw [stagesFrom_cons, attempt_skip env domain d acc a (h a (List.mem_cons_self _ _))]
    rw [ih ⟨acc.val, acc.sys, acc.events ++ [Event.call a]⟩
      (fun st hst => h st (List.mem_cons_of_mem _ hst))]
    simp

theorem stagesFrom_append (env : Env) (domain d : String) (acc : Held) (l1 l2 : List Stage) :
    stagesFrom env domain d acc (l1 ++ l2)
      = stagesFrom env domain d (stagesFrom env domain d acc l1) l2 := by
  simp [stagesFrom, List.foldl_append]

theorem index_lt_of_mem_take (n : Nat) (st : Stage) (h : st ∈ stageOrder.take n) :
    st.index < n := by
  rcases n with _ | _ | _ | _ | _ | n
  · simp at h
  all_goals
    simp [stageOrder] at h
    cases st <;> simp_all [Stage.index]

theorem stagesFrom_sim (env : Env) (domain d : String) (l : List Stage) :
    ∀ a b : Held, (∀ st : Stage, st.flag a.val = st.flag b.val) → a.sys.vis = b.sys.vis →
      (∀ st : Stage, st.flag (stagesFrom env domain d a l).val
        = st.flag (stagesFrom env domain d b l).val) ∧
      (stagesFrom env domain d a l).sys.vis = (stagesFrom env domain d b l).sys.vis := by
  induction l with
  | nil => intro a b hf hv; exact ⟨hf, hv⟩
  | cons st l ih =>
    intro a b hf hv
    have h := Stage.run_sim st env domain d a.val b.val a.sys b.sys hf hv
    exact ih (attempt env domain d a st) (attempt env domain d b st) h.2.2 h.2.1

theorem flagsOf_congr (p q : ReconProgress) (h : ∀ st : Stage, st.flag p = st.flag q) :
    flagsOf p = flagsOf q := by
  simp [flagsOf, h]

theorem flagsOf_finishRecon (env : Env) (d : String) (r : Held) :
    flagsOf (finishRecon env d r).val = flagsOf r.val := rfl

/-- What `performRecon` does once the domain is accepted, the directory made and the record
chosen. -/
theorem performRecon_eq (env : Env) (domain : String) (s : Sys)
    (hne : trimSpace domain ≠ "") (hmk : env.mkdirOk (workDir domain) s.vis = true) :
    performRecon env domain s =
      ⟨none,
        some (reconFrom env (trimSpace domain) (workDir domain)
          (match (loadProgress env (workDir domain) s).1 with
           | some p => p
           | none => freshProgress (trimSpace domain)) s).val,
        (reconFrom env (trimSpace domain) (workDir domain)
          (match (loadProgress env (workDir domain) s).1 with
           | some p => p
           | none => freshProgress (trimSpace domain)) s).sys,
        (reconFrom env (trimSpace domain) (workDir domain)
          (match (loadProgress env (workDir domain) s).1 with
           | some p => p
           | none => freshProgress (trimSpace domain)) s).events⟩ := by
  simp only [workDir] at hmk
  simp only [performRecon, hne, createOutputDir, hmk, if_true, if_false, workDir, freshProgress]

theorem reconFrom_resume (env : Env) (domain d : String) (n : Nat)
    (r : ReconProgress) (mid : Held) (ck : String → Option String)
    (hr : prefixDone n r) (hdone : prefixDone n mid.val) :
    stagesFrom env domain d ⟨r, ⟨mid.sys.vis, ck⟩, []⟩ (stageOrder.take n)
      = ⟨r, ⟨mid.sys.vis, ck⟩, (stageOrder.take n).map Event.call⟩ ∧
    reconFrom env domain d r ⟨mid.sys.vis, ck⟩
      = finishRecon env d (stagesFrom env domain d
          ⟨r, ⟨mid.sys.vis, ck⟩, (stageOrder.take n).map Event.call⟩ (stageOrder.drop n)) ∧
    flagsOf (reconFrom env domain d r ⟨mid.sys.vis, ck⟩).val
      = flagsOf (finishRecon env d (stagesFrom env domain d mid (stageOrder.drop n))).val ∧
    (reconFrom env domain d r ⟨mid.sys.vis, ck⟩).val.Completed = true := by
  have hskip : stagesFrom env domain d ⟨r, ⟨mid.sys.vis, ck⟩, []⟩ (stageOrder.take n)
      = ⟨r, ⟨mid.sys.vis, ck⟩, (stageOrder.take n).map Event.call⟩ := by
    rw [stagesFrom_skip]
    · simp
    · intro st hst
      rw [hr st (mem_stageOrder st)]
      simpa using index_lt_of_mem_take n st hst
  have hresumed : reconFrom env domain d r ⟨mid.sys.vis, ck⟩
      = finishRecon env d (stagesFrom env domain d
          ⟨r, ⟨mid.sys.vis, ck⟩, (stageOrder.take n).map Event.call⟩ (stageOrder.drop n)) := by
    rw [reconFrom, reconStages_eq, ← hskip, ← stagesFrom_append, List.take_append_drop]
  have hsame : ∀ st : Stage, st.flag r = st.flag mid.val := fun st => by
    rw [hr st (mem_stageOrder st), hdone st (mem_stageOrder st)]
  have hsim := (stagesFrom_sim env domain d (stageOrder.drop n)
    ⟨r, ⟨mid.sys.vis, ck⟩, (stageOrder.take n).map Event.call⟩ mid hsame rfl).1
  refine ⟨hskip, hresumed, ?_, ?_⟩
  · rw [hresumed, flagsOf_finishRecon, flagsOf_finishRecon]
    exact flagsOf_congr _ _ hsim
  · rw [hresumed]; rfl

/-- Claim C1, as the code has it.  Take a domain that `performRecon` accepts, any outcome of
the external commands under which the uninterrupted run of a new scan marks its first `n`
stages done, and any record whose first `n` stage flags are true and the others false.
`performRecon` resumed from that record (the one its resume file holds), on the files the
uninterrupted run left after stage `n`: enters stages 1..n without running a command,
saving, or changing the record or the files; does then exactly what the stage calls n+1..5
and the completion do; and ends with the same stage flags and the same `Completed` value as
the uninterrupted run. -/
theorem resume_after_completed_stages (env : Env) (domain : String) (n : Nat)
    (r : ReconProgress) (s0 : Sys) (ck : String → Option String)
    (hne : trimSpace domain ≠ "")
    (hmk0 : env.mkdirOk (workDir domain) s0.vis = true)
    (hmk1 : env.mkdirOk (workDir domain) (uninterrupted env domain s0 n).sys.vis = true)
    (hnew : (loadProgress env (workDir domain) s0).1 = none)
    (hload : (loadProgress env (workDir domain)
      ⟨(uninterrupted env domain s0 n).sys.vis, ck⟩).1 = some r)
    (hr : prefixDone n r)
    (hdone : prefixDone n (uninterrupted env domain s0 n).val) :
    stagesFrom env (trimSpace domain) (workDir domain)
        ⟨r, ⟨(uninterrupted env domain s0 n).sys.vis, ck⟩, []⟩ (stageOrder.take n)
      = ⟨r, ⟨(uninterrupted env domain s0 n).sys.vis, ck⟩, (stageOrder.take n).map Event.call⟩ ∧
    (performRecon env domain ⟨(uninterrupted env domain s0 n).sys.vis, ck⟩).events
      = (finishRecon env (workDir domain) (stagesFrom env (trimSpace domain) (workDir domain)
          ⟨r, ⟨(uninterrupted env domain s0 n).sys.vis, ck⟩, (stageOrder.take n).map Event.call⟩
          (stageOrder.drop n))).events ∧
    (performRecon env domain ⟨(uninterrupted env domain s0 n).sys.vis, ck⟩).progress.map flagsOf
      = (performRecon env domain s0).progress.map flagsOf ∧
    (performRecon env domain
        ⟨(uninterrupted env domain s0 n).sys.vis, ck⟩).progress.map (fun p => p.Completed)
      = (performRecon env domain s0).progress.map (fun p => p.Completed) := by
  obtain ⟨h1, h2, h3, h4⟩ := reconFrom_resume env (trimSpace domain) (workDir domain) n r
    (uninterrupted env domain s0 n) ck hr hdone
  have hfull : reconFrom env (trimSpace domain) (workDir domain)
      (freshProgress (trimSpace domain)) s0
      = finishRecon env (workDir domain) (stagesFrom env (trimSpace domain) (workDir domain)
          (uninterrupted env domain s0 n) (stageOrder.drop n)) := by
    rw [reconFrom, reconStages_eq, uninterrupted, ← stagesFrom_append, List.take_append_drop]
  rw [performRecon_eq env domain ⟨(uninterrupted env domain s0 n).sys.vis, ck⟩ hne hmk1,
    performRecon_eq env domain s0 hne hmk0]
  simp only [hload, hnew, Option.map_some']
  refine ⟨h1, by rw [h2], ?_, ?_⟩
  · rw [h3, hfull]
  · rw [h4, hfull]; rfl

/-- A scan resumed after its second stage, every command succeeding. -/
theorem resume_after_completed_stages_witness :
    (performRecon envResume "example.com"
        ⟨(uninterrupted envResume "example.com" emptySys 2).sys.vis,
          fun _ => some "saved"⟩).progress.map flagsOf
      = (performRecon envResume "example.com" emptySys).progress.map flagsOf :=
  (resume_after_completed_stages envResume "example.com" 2 twoDone emptySys
    (fun _ => some "saved") (by decide) (by decide) (by decide) (by decide) (by decide)
    (by decide) (by decide)).2.2.1

/-- Counterexample to claim C1 as stated: every external command fails, so the uninterrupted
run of a new scan never sets `SubdomainsDone`; resumed on the same files from the record in
which only that flag is set, `performRecon` ends with `SubdomainsDone` true. -/
theorem resume_differs_when_stage_failed :
    prefixDone 1 oneDone ∧
    (loadProgress envFailResume (workDir "example.com")
      ⟨emptySys.vis, fun _ => some "saved"⟩).1 = some oneDone ∧
    (performRecon envFailResume "example.com"
        ⟨emptySys.vis, fun _ => some "saved"⟩).progress.map flagsOf
      = some [true, false, true, false, false] ∧
    (performRecon envFailResume "example.com" emptySys).progress.map flagsOf
      = some [false, false, true, false, false] := by
  decide

/-! ## The admission gate -/

theorem Sched.inv_init (domains : List String) : (Sched.init domains).Inv := by
  simp [Sched.Inv, Sched.init, Sched.held, semaphoreCapacity]

theorem Sched.inv_step (st st1 : Sched) (a : Action) (hinv : st.Inv) (h : st.step a = some st1) :
    st1.Inv := by
  obtain ⟨hsum, hcap⟩ := hinv
  cases a with
  | acquire =>
    simp only [Sched.step] at h
    split at h
    · rename_i d rest hp hh
      split_ifs at h with hlt
      simp only [Option.some.injEq] at h
      subst h
      simp only [Sched.Inv, Sched.held, hh] at hsum ⊢
      simp at hsum ⊢
      omega
    · simp at h
  | launch =>
    simp only [Sched.step] at h
    split at h
    · rename_i d hh
      simp only [Option.some.injEq] at h
      subst h
      simp only [Sched.Inv, Sched.held, hh] at hsum ⊢
      simp at hsum ⊢
      omega
    · simp at h
  | finish i =>
    simp only [Sched.step] at h
    split at h
    · rename_i d hg
      have hi : i < st.running.length := by
        rw [List.get?_eq_some] at hg
        exact hg.1
      simp only [Option.some.injEq] at h
      subst h
      simp only [Sched.Inv, Sched.held, List.length_eraseIdx_of_lt hi, List.length_append,
        List.length_singleton] at hsum ⊢
      omega
    · simp at h
  | release i =>
    simp only [Sched.step] at h
    split at h
    · rename_i d hg
      have hi : i < st.returned.length := by
        rw [List.get?_eq_some] at hg
        exact hg.1
      simp only [Option.some.injEq] at h
      subst h
      simp only [Sched.Inv, Sched.held, List.length_eraseIdx_of_lt hi] at hsum ⊢
      omega
    · simp at h

theorem Sched.inv_exec (acts : List Action) :
    ∀ st st1 : Sched, st.Inv → st.exec acts = some st1 → st1.Inv := by
  induction acts with
  | nil =>
    intro st st1 hinv h
    simp only [Sched.exec, Option.some.injEq] at h
    exact h ▸ hinv
  | cons a rest ih =>
    intro st st1 hinv h
    simp only [Sched.exec] at h
    split at h
    · rename_i st2 hst
      exact ih st2 st1 (Sched.inv_step st st2 a hinv hst) h
    · simp at h

/-- Claim C6 (bounded concurrency).  In the batch mode of `main`, whose semaphore channel has
capacity 3, for every batch of domains and every interleaving of the steps of the loop and of
the goroutines: the `performRecon` runs started and not yet returned are never more than 3,
nor are the goroutines started that have not yet released the semaphore; and while 3 of
them hold it, the loop can neither take the semaphore nor start another run. -/
theorem bounded_concurrency (domains : List String) (acts : List Action) (st : Sched)
    (h : (Sched.init domains).exec acts = some st) :
    st.running.length ≤ 3 ∧
    st.running.length + st.returned.length ≤ 3 ∧
    (st.running.length + st.returned.length = 3 →
      st.step .acquire = none ∧ st.step .launch = none) := by
  obtain ⟨hsum, hcap⟩ := Sched.inv_exec acts _ st (Sched.inv_init domains) h
  simp only [semaphoreCapacity] at hcap
  refine ⟨by omega, by omega, fun h3 => ?_⟩
  have hheld : st.held = 0 := by omega
  have hsem : st.sem = 3 := by omega
  have hnone : st.holding = none := by
    cases hh : st.holding with
    | none => rfl
    | some d => simp [Sched.held, hh] at hheld
  constructor
  · simp only [Sched.step, hnone, hsem, semaphoreCapacity]
    split <;> simp
  · simp [Sched.step, hnone]

/-- Three runs hold the semaphore and a fourth domain waits. -/
theorem bounded_concurrency_witness :
    gateFull.running.length ≤ 3 ∧
    gateFull.running.length + gateFull.returned.length ≤ 3 ∧
    (gateFull.running.length + gateFull.returned.length = 3 →
      gateFull.step .acquire = none ∧ gateFull.step .launch = none) :=
  bounded_concurrency sampleBatch sampleSteps gateFull (by decide)

/-! ## Shell expressions -/

theorem splitSlashAux_mem (rest : List Char) :
    ∀ (cur comp : List Char), comp ∈ splitSlashAux cur rest →
      ∀ c ∈ comp, c ∈ cur ∨ c ∈ rest := by
  induction rest with
  | nil =>
    intro cur comp h c hc
    simp only [splitSlashAux, List.mem_singleton] at h
    subst h
    exact Or.inl (List.mem_reverse.mp hc)
  | cons x xs ih =>
    intro cur comp h c hc
    simp only [splitSlashAux] at h
    split_ifs at h with hx
    · rcases List.mem_cons.mp h with h | h
      · subst h; exact Or.inl (List.mem_reverse.mp hc)
      · rcases ih [] comp h c hc with h1 | h1
        · simp at h1
        · exact Or.inr (List.mem_cons_of_mem _ h1)
    · rcases ih (x :: cur) comp h c hc with h1 | h1
      · rcases List.mem_cons.mp h1 with h2 | h2
        · exact Or.inr (h2 ▸ List.mem_cons_self _ _)
        · exact Or.inl h2
      · exact Or.inr (List.mem_cons_of_mem _ h1)

theorem cleanStep_mem (rooted : Bool) (stack : List (List Char)) (comp x : List Char)
    (h : x ∈ cleanStep rooted stack comp) : x ∈ stack ∨ x = comp := by
  unfold cleanStep at h
  cases stack with
  | nil =>
    simp only at h
    split_ifs at h <;> simp_all
  | cons top below =>
    simp only at h
    split_ifs at h
    · exact Or.inl h
    · rcases List.mem_cons.mp h with h | h
      · exact Or.inr h
      · exact Or.inl h
    · exact Or.inl (List.mem_cons_of_mem _ h)
    · rcases List.mem_cons.mp h with h | h
      · exact Or.inr h
      · exact Or.inl h

theorem foldl_cleanStep_mem (rooted : Bool) (comps : List (List Char)) :
    ∀ (stack : List (List Char)) (x : List Char),
      x ∈ comps.foldl (cleanStep rooted) stack → x ∈ stack ∨ x ∈ comps := by
  induction comps with
  | nil => intro stack x h; exact Or.inl h
  | cons a rest ih =>
    intro stack x h
    rcases ih _ x h with h1 | h1
    · rcases cleanStep_mem rooted stack a x h1 with h2 | h2
      · exact Or.inl h2
      · exact Or.inr (h2 ▸ List.mem_cons_self _ _)
    · exact Or.inr (List.mem_cons_of_mem _ h1)

theorem joinStack_mem (stack : List (List Char)) :
    ∀ c ∈ joinStack stack, c = '/' ∨ ∃ x ∈ stack, c ∈ x := by
  induction stack with
  | nil => intro c h; simp [joinStack] at h
  | cons a rest ih =>
    intro c h
    cases rest with
    | nil => exact Or.inr ⟨a, List.mem_cons_self _ _, by simpa [joinStack] using h⟩
    | cons b rest =>
      simp only [joinStack, List.mem_append, List.mem_cons] at h
      rcases h with h | h | h
      · rcases ih c h with h1 | ⟨x, hx, hcx⟩
        · exact Or.inl h1
        · exact Or.inr ⟨x, List.mem_cons_of_mem _ hx, hcx⟩
      · exact Or.inl h
      · exact Or.inr ⟨a, List.mem_cons_self _ _, h⟩

theorem cleanChars_mem (p : List Char) : ∀ c ∈ cleanChars p, c = '/' ∨ c = '.' ∨ c ∈ p := by
  intro c h
  have hbody : ∀ c ∈ joinStack ((splitSlashAux [] p).foldl
      (cleanStep (decide (p.head? = some '/'))) []), c = '/' ∨ c ∈ p := by
    intro c hc
    rcases joinStack_mem _ c hc with h1 | ⟨x, hx, hcx⟩
    · exact Or.inl h1
    · rcases foldl_cleanStep_mem _ _ _ x hx with h2 | h2
      · simp at h2
      · rcases splitSlashAux_mem p [] x h2 c hcx with h3 | h3
        · simp at h3
        · exact Or.inr h3
  simp only [cleanChars] at h
  split_ifs at h with h1 h2 h3
  · simp at h; exact Or.inr (Or.inl h)
  · rcases List.mem_cons.mp h with h | h
    · exact Or.inl h
    · rcases hbody c h with h4 | h4
      · exact Or.inl h4
      · exact Or.inr (Or.inr h4)
  · simp at h; exact Or.inr (Or.inl h)
  · rcases hbody c h with h4 | h4
    · exact Or.inl h4
    · exact Or.inr (Or.inr h4)

theorem joinChars_mem (a b : List Char) :
    ∀ c ∈ joinChars a b, c = '/' ∨ c = '.' ∨ c ∈ a ∨ c ∈ b := by
  intro c h
  unfold joinChars at h
  split_ifs at h
  · simp at h
  · rcases cleanChars_mem _ c h with h | h | h
    · exact Or.inl h
    · exact Or.inr (Or.inl h)
    · exact Or.inr (Or.inr (Or.inr h))
  · rcases cleanChars_mem _ c h with h | h | h
    · exact Or.inl h
    · exact Or.inr (Or.inl h)
    · exact Or.inr (Or.inr (Or.inl h))
  · rcases cleanChars_mem _ c h with h | h | h
    · exact Or.inl h
    · exact Or.inr (Or.inl h)
    · simp only [List.mem_append, List.mem_cons] at h
      rcases h with h | h | h
      · exact Or.inr (Or.inr (Or.inl h))
      · exact Or.inl h
      · exact Or.inr (Or.inr (Or.inr h))

/-- Joining two paths free of shell metacharacters gives a path free of them. -/
theorem shellSafe_join (a b : String) (ha : shellSafe a = true) (hb : shellSafe b = true) :
    shellSafe (join a b) = true := by
  simp only [shellSafe, List.all_eq_true, join] at ha hb ⊢
  intro c hc
  rcases joinChars_mem _ _ c hc with h | h | h | h
  · subst h; decide
  · subst h; decide
  · exact ha c h
  · exact hb c h

theorem shellArgOk_join (d f : String) (hf : f ∈ artifactNames) :
    shellArgOk d (join d f) = true := by
  simp only [shellArgOk, Bool.or_eq_true, List.any_eq_true]
  exact Or.inr ⟨f, hf, by simp⟩

theorem shellArgOk_pattern (d a : String) (ha : a ∈ patterns) : shellArgOk d a = true := by
  simp [shellArgOk, ha]

theorem gfTemp_mem (a : String) (ha : a ∈ patterns) :
    sprintf "gf_%s_tmp.txt" [a] ∈ artifactNames := by
  simp only [artifactNames, List.mem_append, List.mem_map]
  exact Or.inr ⟨a, ha, rfl⟩

theorem feroxLoop_shellOk (env : Env) (d : String) (l : List String) :
    ∀ (i : Nat) (v : Vis), (feroxLoop env d i l v).events.all (shellOk d) = true := by
  induction l with
  | nil => intro i v; simp [feroxLoop]
  | cons t rest ih =>
    intro i v
    unfold feroxLoop
    split_ifs with h
    · simp
    · simp [ih, shellOk]

theorem gfLoop_shellOk (env : Env) (d : String) (l : List String) :
    (∀ a ∈ l, a ∈ patterns) →
      ∀ v : Vis, (gfLoop env d (join d "urls.txt") l v).events.all (shellOk d) = true := by
  induction l with
  | nil => intro _ v; simp [gfLoop]
  | cons a rest ih =>
    intro hl v
    have ha := hl a (List.mem_cons_self _ _)
    have h1 : shellArgOk d (join d "urls.txt") = true := shellArgOk_join d _ (by decide)
    have h2 : shellArgOk d a = true := shellArgOk_pattern d a ha
    have h3 : shellArgOk d (join d (sprintf "gf_%s_tmp.txt" [a])) = true :=
      shellArgOk_join d _ (gfTemp_mem a ha)
    have h4 : decide ("cat %s | gf %s > %s 2>/dev/null || true" ∈ shellTemplates) = true := by
      decide
    simp only [gfLoop, List.all_append, shellf_events, List.all_cons, List.all_nil, shellOk,
      h1, h2, h3, h4, Bool.and_self, Bool.true_and]
    exact ih (fun b hb => hl b (List.mem_cons_of_mem _ hb)) _

theorem Stage.body_shellOk (stage : Stage) (env : Env) (domain d : String) (v : Vis) :
    (stage.body env domain d v).events.all (shellOk d) = true := by
  have hj : ∀ f, f ∈ artifactNames → shellArgOk d (join d f) = true := shellArgOk_join d
  have h1 := hj "subdomains_live.txt" (by decide)
  have h2 := hj "gau_tmp.txt" (by decide)
  have h3 := hj "uro_tmp.txt" (by decide)
  have h4 := hj "urls.txt" (by decide)
  have h5 := hj "ferox_tmp_*.txt" (by decide)
  have h6 := hj "directories_tmp.txt" (by decide)
  have h7 := hj "gf_*_tmp.txt" (by decide)
  have h8 := hj "gfpatterns_tmp.txt" (by decide)
  have h9 := hj "jsfiles_tmp.txt" (by decide)
  have t1 : "cat %s | gau >> %s" ∈ shellTemplates := by decide
  have t2 : "cat %s | uro > %s" ∈ shellTemplates := by decide
  have t3 : combineTemplate ∈ shellTemplates := by decide
  have t5 : "cat %s 2>/dev/null | sort -u > %s || true" ∈ shellTemplates := by decide
  have t6 : jsTemplate ∈ shellTemplates := by decide
  have hgf := fun v => gfLoop_shellOk env d patterns (fun _ h => h) v
  cases stage <;>
    simp only [Stage.body, gfMerge, gfFinal, jsFinal, jsFilter] <;>
    (try split_ifs) <;>
    simp [shellOk, feroxLoop_shellOk, hgf, h1, h2, h3, h4, h5, h6, h7, h8, h9, t1, t2, t3, t5, t6]

theorem Stage.run_shellOk (stage : Stage) (env : Env) (domain d : String) (p : ReconProgress)
    (s : Sys) : (stage.run env domain d p s).events.all (shellOk d) = true := by
  have hb := stage.body_shellOk env domain d s.vis
  rw [Stage.run_eq_normal]; simp only [Stage.normal]
  split_ifs
  · simp [shellOk]
  · split <;> simp [shellOk, hb]

theorem stagesFrom_shellOk (env : Env) (domain d : String) (l : List Stage) :
    ∀ acc : Held, acc.events.all (shellOk d) = true →
      (stagesFrom env domain d acc l).events.all (shellOk d) = true := by
  induction l with
  | nil => intro acc h; exact h
  | cons st l ih =>
    intro acc h
    apply ih
    simp only [attempt, List.all_append, h, Stage.run_shellOk, Bool.true_and]
    split <;> simp [shellOk]

theorem performRecon_shellOk (env : Env) (domain : String) (s : Sys) :
    (performRecon env domain s).events.all
      (shellOk (join "reconcombo" (trimSpace domain))) = true := by
  simp only [performRecon, createOutputDir]
  split_ifs
  · simp
  · simp only [reconFrom, finishRecon, reconStages_eq]
    simp [stagesFrom_shellOk, shellOk]
  · simp

/-- Claim C7, as the code has it.  Every expression the stages pass to `runShellCommand` is
one of six fixed formats filled with pattern names of the fixed vocabulary and with fixed
file names joined to the working directory `reconcombo/<domain>`, where the domain is the
input with only its surrounding whitespace removed.  So the text put into the formats is free
of shell metacharacters when the trimmed domain is. -/
theorem shell_expressions_from_templates (env : Env) (domain : String) (s : Sys)
    (template : String) (args : List String) (o : String) (ok : Bool)
    (h : Event.shell template args o ok ∈ (performRecon env domain s).events) :
    template ∈ shellTemplates ∧
    (∀ a ∈ args, a ∈ patterns ∨
      ∃ f ∈ artifactNames, a = join (join "reconcombo" (trimSpace domain)) f) ∧
    (shellSafe (trimSpace domain) = true → ∀ a ∈ args, shellSafe a = true) := by
  have hall := List.all_eq_true.mp (performRecon_shellOk env domain s) _ h
  simp only [shellOk, Bool.and_eq_true, decide_eq_true_eq, List.all_eq_true] at hall
  obtain ⟨ht, hargs⟩ := hall
  have hargs2 : ∀ a ∈ args, a ∈ patterns ∨
      ∃ f ∈ artifactNames, a = join (join "reconcombo" (trimSpace domain)) f := by
    intro a ha
    have := hargs a ha
    simp only [shellArgOk, Bool.or_eq_true, decide_eq_true_eq, List.any_eq_true,
      beq_iff_eq] at this
    exact this
  refine ⟨ht, hargs2, fun hsafe a ha => ?_⟩
  rcases hargs2 a ha with hp | ⟨f, hf, rfl⟩
  · have : ∀ b ∈ patterns, shellSafe b = true := by decide
    exact this a hp
  · have hfs : ∀ b ∈ artifactNames, shellSafe b = true := by decide
    exact shellSafe_join _ _ (shellSafe_join _ _ (by decide) hsafe) (hfs f hf)

/-- The uro expression of a run on the domain `example.com`. -/
theorem shell_expressions_from_templates_witness :
    "cat %s | uro > %s" ∈ shellTemplates ∧
    (∀ a ∈ ["reconcombo/example.com/gau_tmp.txt", "reconcombo/example.com/uro_tmp.txt"],
      a ∈ patterns ∨
      ∃ f ∈ artifactNames, a = join (join "reconcombo" (trimSpace " example.com ")) f) ∧
    (shellSafe (trimSpace " example.com ") = true →
      ∀ a ∈ ["reconcombo/example.com/gau_tmp.txt", "reconcombo/example.com/uro_tmp.txt"],
        shellSafe a = true) :=
  shell_expressions_from_templates envAllFail " example.com " emptySys "cat %s | uro > %s"
    ["reconcombo/example.com/gau_tmp.txt", "reconcombo/example.com/uro_tmp.txt"] "" false
    (by decide)

/-- Counterexample to claim C7 as stated: `performRecon` accepts the domain `x;id` and passes
to `runShellCommand` an expression into which a path with the character `;` was put. -/
theorem shell_expression_with_metacharacter :
    trimSpace "x;id" ≠ "" ∧
    Event.shell "cat %s | uro > %s"
        ["reconcombo/x;id/gau_tmp.txt", "reconcombo/x;id/uro_tmp.txt"] "" false
      ∈ (performRecon envAllFail "x;id" emptySys).events ∧
    shellSafe "reconcombo/x;id/gau_tmp.txt" = false ∧
    sprintf "cat %s | uro > %s" ["reconcombo/x;id/gau_tmp.txt", "reconcombo/x;id/uro_tmp.txt"]
      = "cat reconcombo/x;id/gau_tmp.txt | uro > reconcombo/x;id/uro_tmp.txt" := by
  decide

end ReconCombo
